import Mathlib

/-!
Verification development for the whawty/nginx-sso cookie core.

The Go sources are shallowly embedded below:
* bytes and characters are `Nat` (with explicit `< 256` bounds where needed),
* Go byte slices / strings are `List Nat`,
* Go `error` results are `Except`/`Option`.

Each definition's doc comment names the Go source it is translated from.
-/

namespace NginxSSO

/-! ## Base64, URL-safe alphabet, no padding

Embedding of Go `encoding/base64` `RawURLEncoding` (`EncodeToString` /
`DecodeString`), used by `(*Value).String` and `(*Value).FromString` in
the cookie codec (src/unnamed/part_010).
-/

/-- The URL-safe base64 alphabet `A-Za-z0-9-_` as a function from sextet
value to ASCII code (Go `encoding/base64.URLEncoding` alphabet). -/
def b64Char (v : Nat) : Nat :=
  if v < 26 then 65 + v
  else if v < 52 then 97 + (v - 26)
  else if v < 62 then 48 + (v - 52)
  else if v = 62 then 45
  else 95

/-- Inverse alphabet lookup: ASCII code to sextet value, `none` for
characters outside the URL-safe alphabet (this is what makes Go's
`RawURLEncoding.DecodeString` fail on `+`, `/`, `=`, `.` …). -/
def b64CharDec (c : Nat) : Option Nat :=
  if 65 ≤ c ∧ c ≤ 90 then some (c - 65)
  else if 97 ≤ c ∧ c ≤ 122 then some (26 + (c - 97))
  else if 48 ≤ c ∧ c ≤ 57 then some (52 + (c - 48))
  else if c = 45 then some 62
  else if c = 95 then some 63
  else none

/-- Split a byte list into big-endian sextets, exactly as base64 encoding
groups 3 input bytes into 4 output characters, with the Go `Raw` (unpadded)
tail handling: 1 trailing byte yields 2 characters, 2 yield 3. -/
def toSextets : List Nat → List Nat
  | [] => []
  | [b1] => [b1 / 4, b1 % 4 * 16]
  | [b1, b2] => [b1 / 4, b1 % 4 * 16 + b2 / 16, b2 % 16 * 4]
  | b1 :: b2 :: b3 :: rest =>
      b1 / 4 :: (b1 % 4 * 16 + b2 / 16) :: (b2 % 16 * 4 + b3 / 64) :: b3 % 64 :: toSextets rest

/-- Reassemble bytes from sextets; `none` on a length ≡ 1 (mod 4) input,
which Go's unpadded decoder rejects. Like Go's non-strict decoder, trailing
bits of the final partial group are ignored rather than checked. -/
def fromSextets : List Nat → Option (List Nat)
  | [] => some []
  | [_] => none
  | [c1, c2] => some [c1 * 4 + c2 / 16]
  | [c1, c2, c3] => some [c1 * 4 + c2 / 16, c2 % 16 * 16 + c3 / 4]
  | c1 :: c2 :: c3 :: c4 :: rest =>
      (fromSextets rest).map
        (fun bs => (c1 * 4 + c2 / 16) :: (c2 % 16 * 16 + c3 / 4) :: (c3 % 4 * 64 + c4) :: bs)

/-- Go `base64.RawURLEncoding.EncodeToString`. -/
def b64Encode (bs : List Nat) : List Nat := (toSextets bs).map b64Char

/-- Alphabet lookup over a whole string: `none` as soon as one character
is outside the alphabet (Go `CorruptInputError`). -/
def decodeChars : List Nat → Option (List Nat)
  | [] => some []
  | c :: rest =>
      match b64CharDec c, decodeChars rest with
      | some v, some vs => some (v :: vs)
      | _, _ => none

/-- Go `encoding/base64` ignores CR (13) and LF (10) anywhere in its
input ("New line characters (\r and \n) are ignored"): the kept
characters. -/
def b64Keep (c : Nat) : Bool := c != 10 && c != 13

/-- Go `base64.RawURLEncoding.DecodeString`: CR and LF are skipped,
every remaining character must be in the alphabet; `none` is the decode
error. -/
def b64Decode (cs : List Nat) : Option (List Nat) :=
  (decodeChars (cs.filter b64Keep)).bind fromSextets

theorem b64CharDec_b64Char : ∀ v, v < 64 → b64CharDec (b64Char v) = some v := by decide

theorem b64Char_ne_dot (v : Nat) : b64Char v ≠ 46 := by
  unfold b64Char; split <;> [omega; split <;> [omega; split <;> [omega; split <;> omega]]]

theorem toSextets_lt (bs : List Nat) (h : ∀ b ∈ bs, b < 256) :
    ∀ v ∈ toSextets bs, v < 64 := by
  induction bs using toSextets.induct with
  | case1 => simp [toSextets]
  | case2 b1 =>
      simp only [toSextets, List.mem_cons, List.mem_singleton, List.not_mem_nil, or_false]
      have := h b1 (by simp)
      rintro v (rfl | rfl) <;> omega
  | case3 b1 b2 =>
      simp only [toSextets, List.mem_cons, List.not_mem_nil, or_false]
      have h1 := h b1 (by simp)
      have h2 := h b2 (by simp)
      rintro v (rfl | rfl | rfl) <;> omega
  | case4 b1 b2 b3 rest ih =>
      simp only [toSextets, List.mem_cons]
      have h1 := h b1 (by simp)
      have h2 := h b2 (by simp)
      have h3 := h b3 (by simp)
      rintro v (rfl | rfl | rfl | rfl | hv)
      · omega
      · omega
      · omega
      · omega
      · exact ih (fun b hb => h b (by simp [hb])) v hv

theorem fromSextets_toSextets (bs : List Nat) (h : ∀ b ∈ bs, b < 256) :
    fromSextets (toSextets bs) = some bs := by
  induction bs using toSextets.induct with
  | case1 => rfl
  | case2 b1 =>
      have h1 := h b1 (by simp)
      show fromSextets [b1 / 4, b1 % 4 * 16] = some [b1]
      simp only [fromSextets, Option.some.injEq, List.cons.injEq, and_true]
      omega
  | case3 b1 b2 =>
      have h1 := h b1 (by simp)
      have h2 := h b2 (by simp)
      show fromSextets [b1 / 4, b1 % 4 * 16 + b2 / 16, b2 % 16 * 4] = some [b1, b2]
      simp only [fromSextets, Option.some.injEq, List.cons.injEq, and_true]
      constructor
      · omega
      · omega
  | case4 b1 b2 b3 rest ih =>
      have h1 := h b1 (by simp)
      have h2 := h b2 (by simp)
      have h3 := h b3 (by simp)
      have ih' := ih (fun b hb => h b (by simp [hb]))
      show fromSextets (_ :: _ :: _ :: _ :: toSextets rest) = _
      simp only [fromSextets, ih', Option.map_some', Option.some.injEq, List.cons.injEq]
      exact ⟨by omega, by omega, by omega, trivial⟩

theorem decodeChars_map_b64Char (vs : List Nat) (h : ∀ v ∈ vs, v < 64) :
    decodeChars (vs.map b64Char) = some vs := by
  induction vs with
  | nil => rfl
  | cons v vs ih =>
      simp only [List.map_cons, decodeChars, b64CharDec_b64Char v (h v (by simp)),
        ih (fun w hw => h w (by simp [hw]))]

theorem b64Keep_b64Char (v : Nat) : b64Keep (b64Char v) = true := by
  have h : 45 ≤ b64Char v := by
    unfold b64Char
    split <;> [omega; split <;> [omega; split <;> [omega; split <;> omega]]]
  simp only [b64Keep, Bool.and_eq_true, bne_iff_ne, ne_eq]
  omega

theorem filter_b64Keep_encode (bs : List Nat) :
    (b64Encode bs).filter b64Keep = b64Encode bs := by
  refine List.filter_eq_self.mpr (fun c hc => ?_)
  obtain ⟨v, _, rfl⟩ := List.mem_map.mp hc
  exact b64Keep_b64Char v

/-- Base64 round-trip: decoding an encoding recovers the bytes. -/
theorem b64_roundtrip (bs : List Nat) (h : ∀ b ∈ bs, b < 256) :
    b64Decode (b64Encode bs) = some bs := by
  unfold b64Decode
  rw [filter_b64Keep_encode]
  unfold b64Encode
  rw [decodeChars_map_b64Char _ (toSextets_lt bs h)]
  simpa using fromSextets_toSextets bs h

theorem b64Encode_no_dot (bs : List Nat) : 46 ∉ b64Encode bs := by
  unfold b64Encode
  intro hmem
  obtain ⟨v, _, hv⟩ := List.mem_map.mp hmem
  exact b64Char_ne_dot v hv

theorem b64Encode_ne_nil (bs : List Nat) (h : bs ≠ []) : b64Encode bs ≠ [] := by
  match bs, h with
  | b1 :: rest, _ =>
    cases rest with
    | nil => intro hcon; simp [b64Encode, toSextets] at hcon
    | cons b2 rest2 =>
      cases rest2 with
      | nil => intro hcon; simp [b64Encode, toSextets] at hcon
      | cons b3 rest3 => intro hcon; simp [b64Encode, toSextets] at hcon

theorem decodeChars_none_of_mem (cs : List Nat) (c : Nat) (hc : c ∈ cs)
    (h : b64CharDec c = none) : decodeChars cs = none := by
  induction cs with
  | nil => cases hc
  | cons d ds ih =>
      rcases List.mem_cons.mp hc with rfl | hmem
      · unfold decodeChars
        rw [h]
      · unfold decodeChars
        rw [ih hmem]
        cases b64CharDec d <;> rfl

theorem b64Decode_none_of_bad_char (cs : List Nat) (c : Nat) (hc : c ∈ cs)
    (h : b64CharDec c = none) (h10 : c ≠ 10) (h13 : c ≠ 13) : b64Decode cs = none := by
  unfold b64Decode
  have hm : c ∈ cs.filter b64Keep :=
    List.mem_filter.mpr ⟨hc, by simp [b64Keep, h10, h13]⟩
  rw [decodeChars_none_of_mem _ c hm h]
  rfl

/-! ## Go `strings.SplitN(s, ".", 2)`

`splitFirst sep s` returns `none` when `sep` does not occur in `s`
(Go would return a single-element slice, failing the `len(parts) != 2`
check), and the two halves around the first occurrence otherwise. -/

/-- First-separator split, the `n = 2` case of Go `strings.SplitN`. -/
def splitFirst (sep : Nat) : List Nat → Option (List Nat × List Nat)
  | [] => none
  | c :: rest =>
      if c = sep then some ([], rest)
      else (splitFirst sep rest).map (fun p => (c :: p.1, p.2))

theorem splitFirst_eq_none (sep : Nat) (s : List Nat) (h : sep ∉ s) :
    splitFirst sep s = none := by
  induction s with
  | nil => rfl
  | cons c rest ih =>
      have hc : c ≠ sep := fun hcs => h (hcs ▸ List.mem_cons_self c rest)
      simp [splitFirst, hc, ih (fun hm => h (List.mem_cons_of_mem c hm))]

theorem splitFirst_append (sep : Nat) (p q : List Nat) (h : sep ∉ p) :
    splitFirst sep (p ++ sep :: q) = some (p, q) := by
  induction p with
  | nil => simp [splitFirst]
  | cons c rest ih =>
      have hc : c ≠ sep := fun hcs => h (hcs ▸ List.mem_cons_self c rest)
      simp [splitFirst, hc, ih (fun hm => h (List.mem_cons_of_mem c hm))]

theorem splitFirst_mem (sep : Nat) (s p q : List Nat)
    (h : splitFirst sep s = some (p, q)) : s = p ++ sep :: q ∧ sep ∉ p := by
  induction s generalizing p q with
  | nil => cases h
  | cons c rest ih =>
      by_cases hc : c = sep
      · subst hc
        simp only [splitFirst, if_pos rfl, Option.some.injEq, Prod.mk.injEq] at h
        obtain ⟨rfl, rfl⟩ := h
        simp
      · simp only [splitFirst, if_neg hc] at h
        cases hsp : splitFirst sep rest with
        | none => rw [hsp] at h; cases h
        | some pr =>
            rw [hsp] at h
            simp only [Option.map_some', Option.some.injEq, Prod.mk.injEq] at h
            obtain ⟨h1, h2⟩ := h
            obtain ⟨hs, hnp⟩ := ih pr.1 pr.2 (by rw [hsp])
            subst h2
            constructor
            · rw [← h1]; simp [hs]
            · rw [← h1]
              intro hmem
              rcases List.mem_cons.mp hmem with h' | h'
              · exact hc h'.symm
              · exact hnp h'

/-! ## JSON wire form of `SessionBase`

`SessionBase` (src/unnamed/part_010 lines 48–51) is
`{ Username string `json:"u"`; Expires int64 `json:"e"` }`.
Go strings are byte slices; the JSON encoder treats them as UTF-8, so we
model a username as its list of Unicode code points (each a `Nat`), which
is exact for every valid-UTF-8 Go string. `json.Marshal` of a
`SessionBase` emits `{"u":<escaped string>,"e":<decimal int64>}`. -/

/-- A Unicode scalar value, i.e. a code point Go will round-trip through
UTF-8 unchanged (surrogates and out-of-range values are excluded). -/
def ValidRune (r : Nat) : Prop := r < 0xD800 ∨ (0xE000 ≤ r ∧ r < 0x110000)

instance (r : Nat) : Decidable (ValidRune r) := by unfold ValidRune; infer_instance

/-- Lowercase hex digit, as used by Go `encoding/json` `\u00xx` escapes. -/
def hexDigitByte (n : Nat) : Nat := if n < 10 then 48 + n else 87 + n

/-- UTF-8 encoding of one code point (Go `utf8.EncodeRune` on a valid rune). -/
def utf8EncodeRune (r : Nat) : List Nat :=
  if r < 0x80 then [r]
  else if r < 0x800 then [0xC0 + r / 64, 0x80 + r % 64]
  else if r < 0x10000 then [0xE0 + r / 4096, 0x80 + r / 64 % 64, 0x80 + r % 64]
  else [0xF0 + r / 262144, 0x80 + r / 4096 % 64, 0x80 + r / 64 % 64, 0x80 + r % 64]

/-- Go `encoding/json` string escaping for one rune (`Marshal` defaults,
HTML escaping on): safe ASCII is copied; `\\ \" \n \r \t` as two-byte
escapes; other control bytes and `< > &` as `\u00xx`; U+2028/U+2029 as
` `/` `; everything else as literal UTF-8. -/
def jsonEscapeRune (r : Nat) : List Nat :=
  if r < 128 then
    if 32 ≤ r ∧ r ≠ 34 ∧ r ≠ 92 ∧ r ≠ 60 ∧ r ≠ 62 ∧ r ≠ 38 then [r]
    else if r = 92 then [92, 92]
    else if r = 34 then [92, 34]
    else if r = 10 then [92, 110]
    else if r = 13 then [92, 114]
    else if r = 9 then [92, 116]
    else [92, 117, 48, 48, hexDigitByte (r / 16), hexDigitByte (r % 16)]
  else if r = 0x2028 then [92, 117, 50, 48, 50, 56]
  else if r = 0x2029 then [92, 117, 50, 48, 50, 57]
  else utf8EncodeRune r

/-- Escape a whole string (the loop of Go `encodeState.string`). -/
def escapeString : List Nat → List Nat
  | [] => []
  | r :: rest => jsonEscapeRune r ++ escapeString rest

/-- A JSON string literal: quote, escaped content, quote. -/
def marshalStringGo (s : List Nat) : List Nat := 34 :: (escapeString s ++ [34])

/-- ASCII decimal digits of `n`, most significant first
(Go `strconv.AppendInt` for non-negative values). -/
def natToDec (n : Nat) : List Nat :=
  if h : n < 10 then [48 + n]
  else natToDec (n / 10) ++ [48 + n % 10]
decreasing_by omega

/-- Go `strconv.AppendInt`: decimal digits, `-` sign for negatives. -/
def marshalInt (i : Int) : List Nat :=
  if i < 0 then 45 :: natToDec i.natAbs else natToDec i.natAbs

/-- `SessionBase` (src/unnamed/part_010 lines 48–51): username runes and
Unix-seconds expiry. -/
structure SessionBase where
  username : List Nat
  expires : Int
deriving DecidableEq, Repr

/-- `json.Marshal` of a `SessionBase`: `{"u":…,"e":…}` in struct field
order, compact (so `json.Compact` in `MakeValue` is the identity on it). -/
def marshalSessionBase (s : SessionBase) : List Nat :=
  [123, 34, 117, 34, 58] ++ marshalStringGo s.username
    ++ [44, 34, 101, 34, 58] ++ marshalInt s.expires ++ [125]

/-- Hex digit predicate of Go's `getu4` (`0-9 a-f A-F`). -/
def isHexDigit (c : Nat) : Bool :=
  (decide (48 ≤ c) && decide (c ≤ 57))
    || (decide (97 ≤ c) && decide (c ≤ 102))
    || (decide (65 ≤ c) && decide (c ≤ 70))

/-- Value of one hex digit. -/
def hexVal (c : Nat) : Nat :=
  if c ≤ 57 then c - 48 else if c ≤ 70 then c - 55 else c - 87

/-- Value of a `\uXXXX` escape. -/
def hexVal4 (a b c d : Nat) : Nat :=
  hexVal a * 4096 + hexVal b * 256 + hexVal c * 16 + hexVal d

/-- The surrogate-pair lookahead of Go `unquote`: after a high-surrogate
`\\uXXXX` whose value is `v`, the input must continue with an escaped low
surrogate (strict where Go would substitute U+FFFD). -/
def jssSurPair (v : Nat) : List Nat → Option (Option Nat × List Nat)
  | 92 :: 117 :: a2 :: b3 :: c2 :: d2 :: rest4 =>
      if (isHexDigit a2 && isHexDigit b3 && isHexDigit c2 && isHexDigit d2)
          ∧ v < 0xDC00 ∧ 0xDC00 ≤ hexVal4 a2 b3 c2 d2 ∧ hexVal4 a2 b3 c2 d2 < 0xE000 then
        some (some (0x10000 + (v - 0xD800) * 1024 + (hexVal4 a2 b3 c2 d2 - 0xDC00)), rest4)
      else none
  | _ => none

/-- The `\\uXXXX` clause of Go `unquote` (`getu4` + surrogate logic):
four hex digits, with the pair handling delegated to `jssSurPair`. -/
def jssUnicode : List Nat → Option (Option Nat × List Nat)
  | a :: b2 :: c :: d :: rest3 =>
      if isHexDigit a && isHexDigit b2 && isHexDigit c && isHexDigit d then
        if 0xD800 ≤ hexVal4 a b2 c d ∧ hexVal4 a b2 c d < 0xE000 then
          jssSurPair (hexVal4 a b2 c d) rest3
        else some (some (hexVal4 a b2 c d), rest3)
      else none
  | _ => none

/-- The escape clause of Go `unquote` (the byte after a `\\`): the
two-character escapes and `\\uXXXX`. -/
def jssEscape : List Nat → Option (Option Nat × List Nat)
  | [] => none
  | e :: rest2 =>
      if e = 34 ∨ e = 92 ∨ e = 47 then some (some e, rest2)
      else if e = 98 then some (some 8, rest2)
      else if e = 102 then some (some 12, rest2)
      else if e = 110 then some (some 10, rest2)
      else if e = 114 then some (some 13, rest2)
      else if e = 116 then some (some 9, rest2)
      else if e = 117 then jssUnicode rest2
      else none

/-- Three-byte UTF-8 continuation (`utf8.DecodeRune` acceptance ranges,
excluding overlong encodings and surrogates). -/
def jssUtf8Three (b b2 : Nat) : List Nat → Option (Option Nat × List Nat)
  | [] => none
  | b3 :: rest3 =>
      if (if b = 0xE0 then 0xA0 else 0x80) ≤ b2 ∧ b2 ≤ (if b = 0xED then 0x9F else 0xBF)
          ∧ 0x80 ≤ b3 ∧ b3 < 0xC0 then
        some (some ((b - 0xE0) * 4096 + (b2 - 0x80) * 64 + (b3 - 0x80)), rest3)
      else none

/-- Four-byte UTF-8 continuation (`utf8.DecodeRune` acceptance ranges). -/
def jssUtf8Four (b b2 : Nat) : List Nat → Option (Option Nat × List Nat)
  | b3 :: b4 :: rest4 =>
      if (if b = 0xF0 then 0x90 else 0x80) ≤ b2 ∧ b2 ≤ (if b = 0xF4 then 0x8F else 0xBF)
          ∧ 0x80 ≤ b3 ∧ b3 < 0xC0 ∧ 0x80 ≤ b4 ∧ b4 < 0xC0 then
        some (some ((b - 0xF0) * 262144 + (b2 - 0x80) * 4096
          + (b3 - 0x80) * 64 + (b4 - 0x80)), rest4)
      else none
  | _ => none

/-- The literal-UTF-8 clause of Go `unquote` for a lead byte `b ≥ 0x80`
(`utf8.DecodeRune` on the remaining bytes). -/
def jssUtf8 (b : Nat) : List Nat → Option (Option Nat × List Nat)
  | [] => none
  | b2 :: rest2 =>
      if 0xC2 ≤ b ∧ b < 0xE0 then
        if 0x80 ≤ b2 ∧ b2 < 0xC0 then some (some ((b - 0xC0) * 64 + (b2 - 0x80)), rest2)
        else none
      else if 0xE0 ≤ b ∧ b < 0xF0 then jssUtf8Three b b2 rest2
      else if 0xF0 ≤ b ∧ b < 0xF5 then jssUtf8Four b b2 rest2
      else none

/-- One step of Go `encoding/json`'s `unquote` on a JSON string body:
`none` on error, `some (none, rest)` once the closing quote is consumed,
`some (some r, rest)` after decoding one rune `r` (a safe ASCII byte, an
escape via `jssEscape`, or a literal UTF-8 sequence via `jssUtf8`).
Restricted to valid input: strict (`none`) instead of U+FFFD substitution
on invalid UTF-8 or unpaired surrogates, neither of which `json.Marshal`
ever emits. -/
def jsonStringStep : List Nat → Option (Option Nat × List Nat)
  | [] => none
  | b :: rest =>
      if b = 34 then some (none, rest)
      else if b = 92 then jssEscape rest
      else if b < 32 then none
      else if b < 128 then some (some b, rest)
      else jssUtf8 b rest

theorem jssSurPair_len (v : Nat) (bs : List Nat) (x : Option Nat) (rest : List Nat)
    (h : jssSurPair v bs = some (x, rest)) : rest.length < bs.length := by
  unfold jssSurPair at h
  repeat' split at h
  all_goals try (simp only [Option.some.injEq, Prod.mk.injEq] at h
                 obtain ⟨-, rfl⟩ := h)
  all_goals try cases h
  all_goals try simp only [List.length_cons] at *
  all_goals try simp_all only [List.cons.injEq, List.length_cons]
  all_goals omega

theorem jssUnicode_len (bs : List Nat) (x : Option Nat) (rest : List Nat)
    (h : jssUnicode bs = some (x, rest)) : rest.length < bs.length := by
  unfold jssUnicode at h
  repeat' split at h
  all_goals try (simp only [Option.some.injEq, Prod.mk.injEq] at h
                 obtain ⟨-, rfl⟩ := h)
  all_goals try (have hu := jssSurPair_len _ _ _ _ h; clear h)
  all_goals try cases h
  all_goals try simp only [List.length_cons] at *
  all_goals try simp_all only [List.cons.injEq, List.length_cons]
  all_goals omega

theorem jssEscape_len (bs : List Nat) (x : Option Nat) (rest : List Nat)
    (h : jssEscape bs = some (x, rest)) : rest.length < bs.length := by
  unfold jssEscape at h
  repeat' split at h
  all_goals try (simp only [Option.some.injEq, Prod.mk.injEq] at h
                 obtain ⟨-, rfl⟩ := h)
  all_goals try (have hu := jssUnicode_len _ _ _ h; clear h)
  all_goals try cases h
  all_goals try simp only [List.length_cons] at *
  all_goals try simp_all only [List.cons.injEq, List.length_cons]
  all_goals omega

theorem jssUtf8Three_len (b b2 : Nat) (bs : List Nat) (x : Option Nat) (rest : List Nat)
    (h : jssUtf8Three b b2 bs = some (x, rest)) : rest.length < bs.length := by
  unfold jssUtf8Three at h
  repeat' split at h
  all_goals try (simp only [Option.some.injEq, Prod.mk.injEq] at h
                 obtain ⟨-, rfl⟩ := h)
  all_goals try cases h
  all_goals try simp only [List.length_cons] at *
  all_goals try simp_all only [List.cons.injEq, List.length_cons]
  all_goals omega

theorem jssUtf8Four_len (b b2 : Nat) (bs : List Nat) (x : Option Nat) (rest : List Nat)
    (h : jssUtf8Four b b2 bs = some (x, rest)) : rest.length < bs.length := by
  unfold jssUtf8Four at h
  repeat' split at h
  all_goals try (simp only [Option.some.injEq, Prod.mk.injEq] at h
                 obtain ⟨-, rfl⟩ := h)
  all_goals try cases h
  all_goals try simp only [List.length_cons] at *
  all_goals try simp_all only [List.cons.injEq, List.length_cons]
  all_goals omega

theorem jssUtf8_len (b : Nat) (bs : List Nat) (x : Option Nat) (rest : List Nat)
    (h : jssUtf8 b bs = some (x, rest)) : rest.length < bs.length := by
  unfold jssUtf8 at h
  repeat' split at h
  all_goals try (simp only [Option.some.injEq, Prod.mk.injEq] at h
                 obtain ⟨-, rfl⟩ := h)
  all_goals try (have hu := jssUtf8Three_len _ _ _ _ _ h; clear h)
  all_goals try (have hu := jssUtf8Four_len _ _ _ _ _ h; clear h)
  all_goals try cases h
  all_goals try simp only [List.length_cons] at *
  all_goals try simp_all only [List.cons.injEq, List.length_cons]
  all_goals omega

theorem jsonStringStep_shrink (bs : List Nat) (x : Option Nat) (rest : List Nat)
    (h : jsonStringStep bs = some (x, rest)) : rest.length < bs.length := by
  cases bs with
  | nil => cases h
  | cons b bs' =>
      unfold jsonStringStep at h
      repeat' split at h
      all_goals try (simp only [Option.some.injEq, Prod.mk.injEq] at h
                     obtain ⟨-, rfl⟩ := h)
      all_goals try (have hu := jssEscape_len _ _ _ h; clear h)
      all_goals try (have hu := jssUtf8_len _ _ _ _ h; clear h)
      all_goals try cases h
      all_goals try simp only [List.length_cons] at *
      all_goals try simp_all only [List.cons.injEq, List.length_cons]
      all_goals omega

/-- The loop of Go `unquote`: decode runes until the closing quote,
returning the runes and the input after the quote. -/
def parseStringBody (bs : List Nat) : Option (List Nat × List Nat) :=
  match h : jsonStringStep bs with
  | none => none
  | some (none, rest) => some ([], rest)
  | some (some r, rest) =>
      have : rest.length < bs.length := jsonStringStep_shrink bs (some r) rest h
      (parseStringBody rest).map (fun p => (r :: p.1, p.2))
termination_by bs.length

/-- Decimal digit predicate. -/
def isDigitB (c : Nat) : Bool := decide (48 ≤ c) && decide (c ≤ 57)

/-- Numeric value of a digit string (most significant first). -/
def decVal (ds : List Nat) : Nat := ds.foldl (fun a d => a * 10 + (d - 48)) 0

/-- Parse a JSON integer (optional `-`, then digits), as Go's decoder +
`strconv.ParseInt` accept for an `int64` field, restricted to the grammar
`json.Marshal` emits. -/
def parseIntBytes (bs : List Nat) : Option (Int × List Nat) :=
  match bs with
  | [] => none
  | c :: rest =>
      if c = 45 then
        match rest.takeWhile isDigitB with
        | [] => none
        | ds => some (-(decVal ds : Int), rest.dropWhile isDigitB)
      else
        match (c :: rest).takeWhile isDigitB with
        | [] => none
        | ds => some ((decVal ds : Int), (c :: rest).dropWhile isDigitB)

/-- `json.Unmarshal` into a `SessionBase`, restricted to the compact
object form `{"u":<string>,"e":<int>}` that `json.Marshal` produces
(Go additionally tolerates whitespace, field reordering and unknown
fields, which nothing in the verified code paths exercises). -/
def unmarshalSessionBase (bs : List Nat) : Option SessionBase :=
  match bs with
  | 123 :: 34 :: 117 :: 34 :: 58 :: 34 :: rest =>
      match parseStringBody rest with
      | none => none
      | some (u, rest2) =>
          match rest2 with
          | 44 :: 34 :: 101 :: 34 :: 58 :: rest3 =>
              match parseIntBytes rest3 with
              | none => none
              | some (e, rest4) => if rest4 = [125] then some ⟨u, e⟩ else none
          | _ => none
  | _ => none

/-! ## Cookie value codec (src/unnamed/part_010) -/

/-- `len(ulid.ULID{})`: raw session identifiers are 16 bytes. -/
def ulidLength : Nat := 16

/-- The codec's `Value`: raw payload and signature bytes
(src/unnamed/part_010 `type Value struct`). -/
structure Value where
  payload : List Nat
  signature : List Nat
deriving DecidableEq, Repr

/-- The distinct failure exits of `(*Value).FromString`
(src/unnamed/part_010 lines 90–110), in source order. -/
inductive CodecError
  | noDot          -- `len(parts) != 2`
  | emptyHalf      -- `parts[0] == "" || parts[1] == ""`
  | badPayloadB64  -- base64 decode of the payload half failed
  | tooShort       -- `len(v.payload) <= ulidLength`
  | badSigB64      -- base64 decode of the signature half failed
deriving DecidableEq, Repr

/-- `(*Value).String` (src/unnamed/part_010 lines 86–88):
`base64url-nopad(payload) "." base64url-nopad(signature)`;
46 is the ASCII code of `.`. -/
def valueString (v : Value) : List Nat :=
  b64Encode v.payload ++ 46 :: b64Encode v.signature

/-- `(*Value).FromString` (src/unnamed/part_010 lines 90–110). -/
def fromString (encoded : List Nat) : Except CodecError Value :=
  match splitFirst 46 encoded with
  | none => .error .noDot
  | some (p0, p1) =>
    if p0 = [] ∨ p1 = [] then .error .emptyHalf
    else
      match b64Decode p0 with
      | none => .error .badPayloadB64
      | some payload =>
        if payload.length ≤ ulidLength then .error .tooShort
        else
          match b64Decode p1 with
          | none => .error .badSigB64
          | some sig => .ok ⟨payload, sig⟩

/-- `MakeValue` (src/unnamed/part_010 lines 66–84): payload is the 16 raw
ULID bytes followed by the compact JSON of the `SessionBase`
(`json.Marshal` cannot fail on this struct and `json.Compact` is the
identity on its already-compact output, so the Go error returns are dead);
the signature starts empty. -/
def MakeValue (id : List Nat) (s : SessionBase) : Value :=
  ⟨id ++ marshalSessionBase s, []⟩

/-- `(*Value).Session` (src/unnamed/part_010 lines 112–115): unmarshal the
payload after the 16 identifier bytes. -/
def valueSessionBase (v : Value) : Option SessionBase :=
  unmarshalSessionBase (v.payload.drop ulidLength)

/-- `(*Value).ID` (src/unnamed/part_010 lines 117–120):
`ulid.UnmarshalBinary` of the first 16 payload bytes, which errors iff
fewer than 16 bytes are available. -/
def valueID (v : Value) : Option (List Nat) :=
  if (v.payload.take ulidLength).length = ulidLength
  then some (v.payload.take ulidLength) else none

/-! ## Round-trip lemmas for the JSON layer -/

theorem natToDec_digits (n : Nat) : ∀ d ∈ natToDec n, 48 ≤ d ∧ d ≤ 57 := by
  induction n using natToDec.induct with
  | case1 n h =>
      rw [natToDec, dif_pos h]
      intro d hd
      simp only [List.mem_singleton] at hd
      omega
  | case2 n h ih =>
      rw [natToDec, dif_neg h]
      intro d hd
      rcases List.mem_append.mp hd with h' | h'
      · exact ih d h'
      · simp only [List.mem_singleton] at h'
        omega

theorem natToDec_ne_nil (n : Nat) : natToDec n ≠ [] := by
  rw [natToDec]
  split
  · simp
  · simp

theorem decVal_append (ds : List Nat) (d : Nat) :
    decVal (ds ++ [d]) = decVal ds * 10 + (d - 48) := by
  unfold decVal
  rw [List.foldl_append]
  rfl

theorem decVal_natToDec (n : Nat) : decVal (natToDec n) = n := by
  induction n using natToDec.induct with
  | case1 n h =>
      rw [natToDec, dif_pos h]
      show (0 * 10 + (48 + n - 48)) = n
      omega
  | case2 n h ih =>
      rw [natToDec, dif_neg h, decVal_append, ih]
      omega

theorem takeWhile_digits_append (ds l : List Nat)
    (hds : ∀ d ∈ ds, isDigitB d = true)
    (hl : ∀ c, l.head? = some c → isDigitB c = false) :
    (ds ++ l).takeWhile isDigitB = ds ∧ (ds ++ l).dropWhile isDigitB = l := by
  induction ds with
  | nil =>
      simp only [List.nil_append]
      cases l with
      | nil => simp
      | cons c cs =>
          have := hl c rfl
          simp [List.takeWhile_cons, List.dropWhile_cons, this]
  | cons d ds ih =>
      have hd := hds d (by simp)
      obtain ⟨h1, h2⟩ := ih (fun x hx => hds x (by simp [hx]))
      simp [List.takeWhile_cons, List.dropWhile_cons, hd, h1, h2]

theorem parseIntBytes_marshalInt (i : Int) (l : List Nat)
    (hl : ∀ c, l.head? = some c → isDigitB c = false) :
    parseIntBytes (marshalInt i ++ l) = some (i, l) := by
  have hdig := natToDec_digits i.natAbs
  have hdigB : ∀ d ∈ natToDec i.natAbs, isDigitB d = true := by
    intro d hd
    have := hdig d hd
    simp only [isDigitB, Bool.and_eq_true, decide_eq_true_eq]
    omega
  obtain ⟨htw, hdw⟩ := takeWhile_digits_append (natToDec i.natAbs) l hdigB hl
  obtain ⟨d0, ds0, hnd⟩ : ∃ d0 ds0, natToDec i.natAbs = d0 :: ds0 := by
    cases hc : natToDec i.natAbs with
    | nil => exact absurd hc (natToDec_ne_nil _)
    | cons a as => exact ⟨a, as, rfl⟩
  by_cases hi : i < 0
  · have harr : marshalInt i ++ l = 45 :: (natToDec i.natAbs ++ l) := by
      rw [marshalInt, if_pos hi]
      rfl
    rw [harr]
    simp only [parseIntBytes, reduceIte]
    rw [htw, hdw, hnd]
    have hv : -((decVal (d0 :: ds0) : Nat) : Int) = i := by
      rw [← hnd, decVal_natToDec]
      omega
    simp [hv]
  · have harr : marshalInt i ++ l = natToDec i.natAbs ++ l := by
      rw [marshalInt, if_neg hi]
    have hd0 := hdig d0 (by rw [hnd]; simp)
    rw [hnd] at htw hdw
    simp only [List.cons_append] at htw hdw
    rw [harr, hnd]
    simp only [List.cons_append]
    simp only [parseIntBytes]
    rw [if_neg (by omega : ¬ d0 = 45), htw, hdw]
    have hv : ((decVal (d0 :: ds0) : Nat) : Int) = i := by
      rw [← hnd, decVal_natToDec]
      omega
    simp [hv]

theorem parseStringBody_none (bs : List Nat) (h : jsonStringStep bs = none) :
    parseStringBody bs = none := by
  rw [parseStringBody]
  split <;> simp_all

theorem parseStringBody_done (bs rest : List Nat) (h : jsonStringStep bs = some (none, rest)) :
    parseStringBody bs = some ([], rest) := by
  rw [parseStringBody]
  split <;> simp_all

theorem parseStringBody_cons (bs : List Nat) (r : Nat) (rest : List Nat)
    (h : jsonStringStep bs = some (some r, rest)) :
    parseStringBody bs = (parseStringBody rest).map (fun p => (r :: p.1, p.2)) := by
  rw [parseStringBody]
  split <;> simp_all

theorem hexDigitByte_isHex : ∀ x, x < 16 → isHexDigit (hexDigitByte x) = true := by decide

theorem hexVal_hexDigitByte : ∀ x, x < 16 → hexVal (hexDigitByte x) = x := by decide

theorem jsonStringStep_cons (b : Nat) (rest : List Nat) :
    jsonStringStep (b :: rest)
      = if b = 34 then some (none, rest)
        else if b = 92 then jssEscape rest
        else if b < 32 then none
        else if b < 128 then some (some b, rest)
        else jssUtf8 b rest := rfl

theorem jssEscape_cons (e : Nat) (rest2 : List Nat) :
    jssEscape (e :: rest2)
      = if e = 34 ∨ e = 92 ∨ e = 47 then some (some e, rest2)
        else if e = 98 then some (some 8, rest2)
        else if e = 102 then some (some 12, rest2)
        else if e = 110 then some (some 10, rest2)
        else if e = 114 then some (some 13, rest2)
        else if e = 116 then some (some 9, rest2)
        else if e = 117 then jssUnicode rest2
        else none := rfl

theorem jssUnicode_cons (a b c d : Nat) (l : List Nat) :
    jssUnicode (a :: b :: c :: d :: l)
      = if isHexDigit a && isHexDigit b && isHexDigit c && isHexDigit d then
          if 0xD800 ≤ hexVal4 a b c d ∧ hexVal4 a b c d < 0xE000 then
            jssSurPair (hexVal4 a b c d) l
          else some (some (hexVal4 a b c d), l)
        else none := rfl

theorem jssUtf8_consEq (b b2 : Nat) (rest2 : List Nat) :
    jssUtf8 b (b2 :: rest2)
      = if 0xC2 ≤ b ∧ b < 0xE0 then
          if 0x80 ≤ b2 ∧ b2 < 0xC0 then some (some ((b - 0xC0) * 64 + (b2 - 0x80)), rest2)
          else none
        else if 0xE0 ≤ b ∧ b < 0xF0 then jssUtf8Three b b2 rest2
        else if 0xF0 ≤ b ∧ b < 0xF5 then jssUtf8Four b b2 rest2
        else none := rfl

theorem jssUtf8Three_consEq (b b2 b3 : Nat) (rest3 : List Nat) :
    jssUtf8Three b b2 (b3 :: rest3)
      = if (if b = 0xE0 then 0xA0 else 0x80) ≤ b2 ∧ b2 ≤ (if b = 0xED then 0x9F else 0xBF)
            ∧ 0x80 ≤ b3 ∧ b3 < 0xC0 then
          some (some ((b - 0xE0) * 4096 + (b2 - 0x80) * 64 + (b3 - 0x80)), rest3)
        else none := rfl

theorem jssUtf8Four_consEq (b b2 b3 b4 : Nat) (rest4 : List Nat) :
    jssUtf8Four b b2 (b3 :: b4 :: rest4)
      = if (if b = 0xF0 then 0x90 else 0x80) ≤ b2 ∧ b2 ≤ (if b = 0xF4 then 0x8F else 0xBF)
            ∧ 0x80 ≤ b3 ∧ b3 < 0xC0 ∧ 0x80 ≤ b4 ∧ b4 < 0xC0 then
          some (some ((b - 0xF0) * 262144 + (b2 - 0x80) * 4096
            + (b3 - 0x80) * 64 + (b4 - 0x80)), rest4)
        else none := rfl

theorem jss_lit (r : Nat) (h32 : 32 ≤ r) (h128 : r < 128) (hq : r ≠ 34) (hb : r ≠ 92)
    (l : List Nat) : jsonStringStep (r :: l) = some (some r, l) := by
  rw [jsonStringStep_cons, if_neg hq, if_neg hb, if_neg (by omega : ¬ r < 32), if_pos h128]

theorem jss_u4 (a b c d : Nat) (l : List Nat)
    (ha : isHexDigit a = true) (hb : isHexDigit b = true)
    (hc : isHexDigit c = true) (hd : isHexDigit d = true)
    (hsur : ¬ (0xD800 ≤ hexVal4 a b c d ∧ hexVal4 a b c d < 0xE000)) :
    jsonStringStep (92 :: 117 :: a :: b :: c :: d :: l)
      = some (some (hexVal4 a b c d), l) := by
  rw [jsonStringStep_cons, if_neg (by norm_num : ¬ ((92 : Nat) = 34)), if_pos rfl,
    jssEscape_cons,
    if_neg (by norm_num : ¬ ((117 : Nat) = 34 ∨ (117 : Nat) = 92 ∨ (117 : Nat) = 47)),
    if_neg (by norm_num : ¬ ((117 : Nat) = 98)), if_neg (by norm_num : ¬ ((117 : Nat) = 102)),
    if_neg (by norm_num : ¬ ((117 : Nat) = 110)), if_neg (by norm_num : ¬ ((117 : Nat) = 114)),
    if_neg (by norm_num : ¬ ((117 : Nat) = 116)), if_pos rfl,
    jssUnicode_cons, if_pos (by simp [ha, hb, hc, hd]), if_neg hsur]

theorem jss_u00 (r : Nat) (h : r < 256) (l : List Nat) :
    jsonStringStep (92 :: 117 :: 48 :: 48 :: hexDigitByte (r / 16) :: hexDigitByte (r % 16) :: l)
      = some (some r, l) := by
  have hv : hexVal4 48 48 (hexDigitByte (r / 16)) (hexDigitByte (r % 16)) = r := by
    have e1 := hexVal_hexDigitByte (r / 16) (by omega)
    have e2 := hexVal_hexDigitByte (r % 16) (by omega)
    have e48 : hexVal 48 = 0 := by decide
    unfold hexVal4
    rw [e1, e2, e48]
    omega
  rw [jss_u4 _ _ _ _ l (by decide) (by decide)
      (hexDigitByte_isHex _ (by omega)) (hexDigitByte_isHex _ (by omega))
      (by rw [hv]; omega),
    hv]

theorem jss_utf8_2 (r : Nat) (h1 : 0x80 ≤ r) (h2 : r < 0x800) (l : List Nat) :
    jsonStringStep ((0xC0 + r / 64) :: (0x80 + r % 64) :: l) = some (some r, l) := by
  rw [jsonStringStep_cons, if_neg (by omega : ¬ (0xC0 + r / 64 = 34)),
    if_neg (by omega : ¬ (0xC0 + r / 64 = 92)), if_neg (by omega : ¬ (0xC0 + r / 64 < 32)),
    if_neg (by omega : ¬ (0xC0 + r / 64 < 128)), jssUtf8_consEq,
    if_pos (by omega : 0xC2 ≤ 0xC0 + r / 64 ∧ 0xC0 + r / 64 < 0xE0),
    if_pos (by omega : 0x80 ≤ 0x80 + r % 64 ∧ 0x80 + r % 64 < 0xC0)]
  have : (0xC0 + r / 64 - 0xC0) * 64 + (0x80 + r % 64 - 0x80) = r := by omega
  rw [this]

theorem jss_utf8_3 (r : Nat) (h1 : 0x800 ≤ r) (h2 : r < 0x10000)
    (hval : ValidRune r) (l : List Nat) :
    jsonStringStep ((0xE0 + r / 4096) :: (0x80 + r / 64 % 64) :: (0x80 + r % 64) :: l)
      = some (some r, l) := by
  have hnosur : r < 0xD800 ∨ 0xE000 ≤ r := by
    rcases hval with h | h
    · exact Or.inl h
    · exact Or.inr h.1
  rw [jsonStringStep_cons, if_neg (by omega : ¬ (0xE0 + r / 4096 = 34)),
    if_neg (by omega : ¬ (0xE0 + r / 4096 = 92)), if_neg (by omega : ¬ (0xE0 + r / 4096 < 32)),
    if_neg (by omega : ¬ (0xE0 + r / 4096 < 128)), jssUtf8_consEq,
    if_neg (by omega : ¬ (0xC2 ≤ 0xE0 + r / 4096 ∧ 0xE0 + r / 4096 < 0xE0)),
    if_pos (by omega : 0xE0 ≤ 0xE0 + r / 4096 ∧ 0xE0 + r / 4096 < 0xF0),
    jssUtf8Three_consEq]
  rw [if_pos ?_]
  · have : (0xE0 + r / 4096 - 0xE0) * 4096 + (0x80 + r / 64 % 64 - 0x80) * 64
        + (0x80 + r % 64 - 0x80) = r := by omega
    rw [this]
  · refine ⟨?_, ?_, by omega, by omega⟩
    · split
      · omega
      · omega
    · split
      · omega
      · omega

theorem jss_utf8_4 (r : Nat) (h1 : 0x10000 ≤ r) (h2 : r < 0x110000) (l : List Nat) :
    jsonStringStep ((0xF0 + r / 262144) :: (0x80 + r / 4096 % 64)
        :: (0x80 + r / 64 % 64) :: (0x80 + r % 64) :: l)
      = some (some r, l) := by
  rw [jsonStringStep_cons, if_neg (by omega : ¬ (0xF0 + r / 262144 = 34)),
    if_neg (by omega : ¬ (0xF0 + r / 262144 = 92)),
    if_neg (by omega : ¬ (0xF0 + r / 262144 < 32)),
    if_neg (by omega : ¬ (0xF0 + r / 262144 < 128)), jssUtf8_consEq,
    if_neg (by omega : ¬ (0xC2 ≤ 0xF0 + r / 262144 ∧ 0xF0 + r / 262144 < 0xE0)),
    if_neg (by omega : ¬ (0xE0 ≤ 0xF0 + r / 262144 ∧ 0xF0 + r / 262144 < 0xF0)),
    if_pos (by omega : 0xF0 ≤ 0xF0 + r / 262144 ∧ 0xF0 + r / 262144 < 0xF5),
    jssUtf8Four_consEq]
  rw [if_pos ?_]
  · have : (0xF0 + r / 262144 - 0xF0) * 262144 + (0x80 + r / 4096 % 64 - 0x80) * 4096
        + (0x80 + r / 64 % 64 - 0x80) * 64 + (0x80 + r % 64 - 0x80) = r := by omega
    rw [this]
  · refine ⟨?_, ?_, by omega, by omega, by omega, by omega⟩
    · split
      · omega
      · omega
    · split
      · omega
      · omega

/-- Decoding one step of the escape of a valid rune yields that rune. -/
theorem jss_escape (r : Nat) (hr : ValidRune r) (l : List Nat) :
    jsonStringStep (jsonEscapeRune r ++ l) = some (some r, l) := by
  by_cases h128 : r < 128
  · by_cases hsafe : 32 ≤ r ∧ r ≠ 34 ∧ r ≠ 92 ∧ r ≠ 60 ∧ r ≠ 62 ∧ r ≠ 38
    · rw [jsonEscapeRune, if_pos h128, if_pos hsafe]
      simpa using jss_lit r hsafe.1 h128 hsafe.2.1 hsafe.2.2.1 l
    · by_cases h92 : r = 92
      · subst h92
        rw [show jsonEscapeRune 92 = [92, 92] from by decide]
        rfl
      · by_cases h34 : r = 34
        · subst h34
          rw [show jsonEscapeRune 34 = [92, 34] from by decide]
          rfl
        · by_cases h10 : r = 10
          · subst h10
            rw [show jsonEscapeRune 10 = [92, 110] from by decide]
            rfl
          · by_cases h13 : r = 13
            · subst h13
              rw [show jsonEscapeRune 13 = [92, 114] from by decide]
              rfl
            · by_cases h9 : r = 9
              · subst h9
                rw [show jsonEscapeRune 9 = [92, 116] from by decide]
                rfl
              · have hform : jsonEscapeRune r
                    = [92, 117, 48, 48, hexDigitByte (r / 16), hexDigitByte (r % 16)] := by
                  rw [jsonEscapeRune, if_pos h128, if_neg hsafe, if_neg h92, if_neg h34,
                    if_neg h10, if_neg h13, if_neg h9]
                rw [hform]
                simpa using jss_u00 r (by omega) l
  · by_cases h2028 : r = 0x2028
    · subst h2028
      rw [show jsonEscapeRune 0x2028 = [92, 117, 50, 48, 50, 56] from by decide]
      rfl
    · by_cases h2029 : r = 0x2029
      · subst h2029
        rw [show jsonEscapeRune 0x2029 = [92, 117, 50, 48, 50, 57] from by decide]
        rfl
      · have hform : jsonEscapeRune r = utf8EncodeRune r := by
          rw [jsonEscapeRune, if_neg h128, if_neg h2028, if_neg h2029]
        rw [hform]
        by_cases hb2 : r < 0x800
        · rw [utf8EncodeRune, if_neg (by omega), if_pos hb2]
          simpa using jss_utf8_2 r (by omega) hb2 l
        · by_cases hb3 : r < 0x10000
          · rw [utf8EncodeRune, if_neg (by omega), if_neg hb2, if_pos hb3]
            simpa using jss_utf8_3 r (by omega) hb3 hr l
          · have hub : r < 0x110000 := by
              rcases hr with h | h
              · omega
              · exact h.2
            rw [utf8EncodeRune, if_neg (by omega), if_neg hb2, if_neg hb3]
            simpa using jss_utf8_4 r (by omega) hub l

/-- Parsing the escaped form of a valid string consumes exactly that
string up to the closing quote. -/
theorem psb_escapeString (s : List Nat) (l : List Nat) (h : ∀ r ∈ s, ValidRune r) :
    parseStringBody (escapeString s ++ 34 :: l) = some (s, l) := by
  induction s with
  | nil =>
      rw [show escapeString [] ++ 34 :: l = 34 :: l from rfl]
      exact parseStringBody_done _ l rfl
  | cons r rest ih =>
      have hr := h r (by simp)
      have ih' := ih (fun x hx => h x (by simp [hx]))
      rw [show escapeString (r :: rest) ++ 34 :: l
          = jsonEscapeRune r ++ (escapeString rest ++ 34 :: l) from by
        simp [escapeString, List.append_assoc]]
      rw [parseStringBody_cons _ r _ (jss_escape r hr _), ih']
      rfl

theorem unmarshalSessionBase_eval (rest : List Nat) :
    unmarshalSessionBase (123 :: 34 :: 117 :: 34 :: 58 :: 34 :: rest)
      = match parseStringBody rest with
        | none => none
        | some (u, rest2) =>
            match rest2 with
            | 44 :: 34 :: 101 :: 34 :: 58 :: rest3 =>
                match parseIntBytes rest3 with
                | none => none
                | some (e, rest4) => if rest4 = [125] then some ⟨u, e⟩ else none
            | _ => none := rfl

/-- `json.Unmarshal` inverts `json.Marshal` on every `SessionBase` whose
username is a valid rune sequence. -/
theorem unmarshalSessionBase_marshal (s : SessionBase) (h : ∀ r ∈ s.username, ValidRune r) :
    unmarshalSessionBase (marshalSessionBase s) = some s := by
  have hm : marshalSessionBase s
      = 123 :: 34 :: 117 :: 34 :: 58 :: 34 :: (escapeString s.username
          ++ 34 :: (44 :: 34 :: 101 :: 34 :: 58 :: (marshalInt s.expires ++ [125]))) := by
    simp [marshalSessionBase, marshalStringGo]
  have hint := parseIntBytes_marshalInt s.expires [125]
    (by intro c hc; simp at hc; subst hc; decide)
  rw [hm, unmarshalSessionBase_eval, psb_escapeString s.username _ h]
  show (match parseIntBytes (marshalInt s.expires ++ [125]) with
        | none => none
        | some (e, rest4) =>
            if rest4 = [125] then some ⟨s.username, e⟩ else none) = some s
  rw [hint]
  simp

/-! ## Byte bounds of the marshalled form -/

theorem utf8EncodeRune_lt (r : Nat) (h : r < 0x110000) : ∀ b ∈ utf8EncodeRune r, b < 256 := by
  intro b hb
  by_cases h1 : r < 0x80
  · rw [utf8EncodeRune, if_pos h1] at hb
    simp at hb
    omega
  · by_cases h2 : r < 0x800
    · rw [utf8EncodeRune, if_neg h1, if_pos h2] at hb
      simp at hb
      rcases hb with rfl | rfl <;> omega
    · by_cases h3 : r < 0x10000
      · rw [utf8EncodeRune, if_neg h1, if_neg h2, if_pos h3] at hb
        simp at hb
        rcases hb with rfl | rfl | rfl <;> omega
      · rw [utf8EncodeRune, if_neg h1, if_neg h2, if_neg h3] at hb
        simp at hb
        rcases hb with rfl | rfl | rfl | rfl <;> omega

theorem hexDigitByte_lt : ∀ x, x < 16 → hexDigitByte x < 256 := by decide

theorem jsonEscapeRune_lt (r : Nat) (h : ValidRune r) : ∀ b ∈ jsonEscapeRune r, b < 256 := by
  have hub : r < 0x110000 := by
    rcases h with h | h
    · omega
    · exact h.2
  intro b hb
  by_cases h128 : r < 128
  · by_cases hsafe : 32 ≤ r ∧ r ≠ 34 ∧ r ≠ 92 ∧ r ≠ 60 ∧ r ≠ 62 ∧ r ≠ 38
    · rw [jsonEscapeRune, if_pos h128, if_pos hsafe] at hb
      simp at hb
      omega
    · rw [jsonEscapeRune, if_pos h128, if_neg hsafe] at hb
      split at hb
      · simp at hb
        rcases hb with rfl | rfl <;> omega
      · split at hb
        · simp at hb
          rcases hb with rfl | rfl <;> omega
        · split at hb
          · simp at hb
            rcases hb with rfl | rfl <;> omega
          · split at hb
            · simp at hb
              rcases hb with rfl | rfl <;> omega
            · split at hb
              · simp at hb
                rcases hb with rfl | rfl <;> omega
              · simp at hb
                have d1 := hexDigitByte_lt (r / 16) (by omega)
                have d2 := hexDigitByte_lt (r % 16) (by omega)
                rcases hb with rfl | rfl | rfl | rfl | rfl | rfl <;> omega
  · by_cases h2028 : r = 0x2028
    · subst h2028
      rw [show jsonEscapeRune 0x2028 = [92, 117, 50, 48, 50, 56] from by decide] at hb
      simp at hb
      rcases hb with rfl | rfl | rfl | rfl | rfl | rfl <;> omega
    · by_cases h2029 : r = 0x2029
      · subst h2029
        rw [show jsonEscapeRune 0x2029 = [92, 117, 50, 48, 50, 57] from by decide] at hb
        simp at hb
        rcases hb with rfl | rfl | rfl | rfl | rfl | rfl <;> omega
      · rw [jsonEscapeRune, if_neg h128, if_neg h2028, if_neg h2029] at hb
        exact utf8EncodeRune_lt r hub b hb

theorem escapeString_lt (s : List Nat) (h : ∀ r ∈ s, ValidRune r) :
    ∀ b ∈ escapeString s, b < 256 := by
  induction s with
  | nil => simp [escapeString]
  | cons r rest ih =>
      intro b hb
      rcases List.mem_append.mp hb with h' | h'
      · exact jsonEscapeRune_lt r (h r (by simp)) b h'
      · exact ih (fun x hx => h x (by simp [hx])) b h'

theorem marshalInt_lt (i : Int) : ∀ b ∈ marshalInt i, b < 256 := by
  intro b hb
  unfold marshalInt at hb
  have hd := natToDec_digits i.natAbs
  split at hb
  · rcases List.mem_cons.mp hb with rfl | h'
    · omega
    · have := hd b h'
      omega
  · have := hd b hb
    omega

theorem marshalSessionBase_lt (s : SessionBase) (h : ∀ r ∈ s.username, ValidRune r) :
    ∀ b ∈ marshalSessionBase s, b < 256 := by
  intro b hb
  unfold marshalSessionBase at hb
  simp only [List.mem_append] at hb
  rcases hb with ((((hA | hM) | hC) | hD) | hE)
  · have hlit : ∀ x ∈ ([123, 34, 117, 34, 58] : List Nat), x < 256 := by decide
    exact hlit b hA
  · unfold marshalStringGo at hM
    rcases List.mem_cons.mp hM with rfl | hM2
    · omega
    · rcases List.mem_append.mp hM2 with hM3 | hM4
      · exact escapeString_lt s.username h b hM3
      · simp at hM4
        omega
  · have hlit : ∀ x ∈ ([44, 34, 101, 34, 58] : List Nat), x < 256 := by decide
    exact hlit b hC
  · exact marshalInt_lt s.expires b hD
  · simp at hE
    omega

/-- The marshalled `SessionBase` is nonempty (it starts with `{`). -/
theorem marshalSessionBase_ne_nil (s : SessionBase) : marshalSessionBase s ≠ [] := by
  simp [marshalSessionBase]

/-- Decoding a rendered `Value` with nonempty payload and signature
succeeds and returns the same payload and signature. -/
theorem fromString_valueString (v : Value) (hp : v.payload ≠ [])
    (hpl : ∀ b ∈ v.payload, b < 256) (hs : v.signature ≠ [])
    (hsl : ∀ b ∈ v.signature, b < 256) (hlen : ulidLength < v.payload.length) :
    fromString (valueString v) = .ok v := by
  unfold valueString fromString
  rw [splitFirst_append 46 _ _ (b64Encode_no_dot v.payload)]
  show (if b64Encode v.payload = [] ∨ b64Encode v.signature = [] then
          Except.error CodecError.emptyHalf
        else match b64Decode (b64Encode v.payload) with
          | none => Except.error CodecError.badPayloadB64
          | some payload =>
            if payload.length ≤ ulidLength then Except.error CodecError.tooShort
            else match b64Decode (b64Encode v.signature) with
              | none => Except.error CodecError.badSigB64
              | some sig => Except.ok ⟨payload, sig⟩) = Except.ok v
  rw [if_neg (by simp [b64Encode_ne_nil _ hp, b64Encode_ne_nil _ hs]), b64_roundtrip _ hpl]
  show (if v.payload.length ≤ ulidLength then Except.error CodecError.tooShort
        else match b64Decode (b64Encode v.signature) with
          | none => Except.error CodecError.badSigB64
          | some sig => Except.ok ⟨v.payload, sig⟩) = Except.ok v
  rw [if_neg (by omega : ¬ v.payload.length ≤ ulidLength), b64_roundtrip _ hsl]

/-! ## Sessions, the signer set, and the store verify pipeline
(src/cookie/store.go and the current cookie.go) -/

/-- `(*SessionBase).IsExpired` (src/unnamed/part_010 lines 57–59):
`time.Unix(s.Expires, 0).Before(time.Now())`. Time is modelled as
nanoseconds since the Unix epoch, so the comparison is
`expires·10⁹ < now`. -/
def SessionBase.isExpiredAt (s : SessionBase) (now : Int) : Bool :=
  s.expires * 1000000000 < now

/-- A raw `ulid.ULID`: 16 bytes. -/
abbrev ULID := List Nat

/-- A Go string used as a map key (list of runes). -/
abbrev Username := List Nat

/-- The current `Session` struct: the `SessionBase` plus the identifier,
as built by `Session{ID: id, SessionBase: s}` in src/cookie/store.go. -/
structure Session where
  id : ULID
  base : SessionBase
deriving DecidableEq, Repr

/-- `AgentInfo` (src/cookie/store.go lines 114–118). -/
structure AgentInfo where
  name : List Nat
  os : List Nat
  deviceType : List Nat
deriving DecidableEq, Repr

/-- `SessionFull` (src/cookie/store.go lines 127–130). -/
structure SessionFull where
  session : Session
  agent : AgentInfo
deriving DecidableEq, Repr

/-- The two failure exits of the current `(*Value).Session`. -/
inductive SessionDecodeError
  | badJSON  -- `json.Unmarshal` failed
  | badID    -- `ulid.UnmarshalBinary` failed (fewer than 16 bytes)
deriving DecidableEq, Repr

/-- Modelled from the spec: the current `(*Value).Session` returning a
full `Session` is not in the source snapshot (src/unnamed/part_010 line
112 is the prior revision returning only the `SessionBase`; the current
revision is exercised by src/unnamed/part_007's `TestValueFromString`,
which reads `s.SessionBase` and `s.ID` from its result). It parses the
`SessionBase` JSON after the 16 identifier bytes and unmarshals the
identifier from the first 16 bytes. -/
def valueSession (v : Value) : Except SessionDecodeError Session :=
  match unmarshalSessionBase (v.payload.drop ulidLength) with
  | none => .error .badJSON
  | some sb =>
      if (v.payload.take ulidLength).length = ulidLength then
        .ok ⟨v.payload.take ulidLength, sb⟩
      else .error .badID

/-- The distinct failure exits of `(*Store).verify`
(src/cookie/store.go lines 467–504), in source order. -/
inductive VerifyError
  | malformed (e : CodecError)       -- `v.FromString` failed
  | badSignature                     -- "cookie signature is not valid"
  | decodeFailed (e : SessionDecodeError) -- "unable to decode cookie"
  | expired                          -- "cookie is expired"
  | backendFailed                    -- "failed to check for cookie revocation"
  | revoked                          -- "cookie is revoked"
deriving DecidableEq, Repr

/-- `(*Store).verify` (src/cookie/store.go lines 467–504). The
signer/verifier set is the list of `key.Verify` accept-predicates over
(payload, signature); the back-end is its `IsRevoked`, which may fail.
The Go key loop leaves `err == nil` from the successful `FromString` in
place when `st.keys` is empty, hence the `keys.isEmpty ||`. -/
def storeVerify (keys : List (List Nat → List Nat → Bool))
    (isRevoked : Session → Except Unit Bool) (now : Int)
    (value : List Nat) : Except VerifyError Session :=
  match fromString value with
  | .error e => .error (.malformed e)
  | .ok v =>
      if keys.isEmpty || keys.any (fun k => k v.payload v.signature) then
        match valueSession v with
        | .error e => .error (.decodeFailed e)
        | .ok s =>
            if s.base.isExpiredAt now then .error .expired
            else
              match isRevoked s with
              | .error _ => .error .backendFailed
              | .ok true => .error .revoked
              | .ok false => .ok s
      else .error .badSignature

/-! ## The in-memory backend (src/cookie/backend_bolt.go lines 659–821)

Go maps are modelled as association lists: `lookupA` is indexing,
`updateA` assignment (replace in place, or append when absent), `eraseA`
is `delete`. Go's map iteration order is unspecified; the insertion
order of the association list fixes one admissible order. -/

def lookupA {α β : Type} [DecidableEq α] : List (α × β) → α → Option β
  | [], _ => none
  | (k, v) :: rest, key => if k = key then some v else lookupA rest key

def updateA {α β : Type} [DecidableEq α] : List (α × β) → α → β → List (α × β)
  | [], key, v => [(key, v)]
  | (k, w) :: rest, key, v =>
      if k = key then (k, v) :: rest else (k, w) :: updateA rest key v

def eraseA {α β : Type} [DecidableEq α] : List (α × β) → α → List (α × β)
  | [], _ => []
  | (k, w) :: rest, key => if k = key then rest else (k, w) :: eraseA rest key

/-- `InMemorySession` (src/cookie/backend_bolt.go lines 672–675). -/
structure InMemorySession where
  base : SessionBase
  agent : AgentInfo
deriving DecidableEq, Repr

/-- `InMemorySessionMap = map[ulid.ULID]InMemorySession`. -/
abbrev InMemorySessionMap := List (ULID × InMemorySession)

/-- `InMemoryBackend` (src/cookie/backend_bolt.go lines 679–683):
`sessions : map[string]InMemorySessionMap` and
`revoked : map[ulid.ULID]SessionBase` (the mutex is concurrency-only). -/
structure InMemoryBackend where
  sessions : List (Username × InMemorySessionMap)
  revoked : List (ULID × SessionBase)
deriving DecidableEq, Repr

/-- `NewInMemoryBackend` (lines 685–695): both maps empty. -/
def InMemoryBackend.empty : InMemoryBackend := ⟨[], []⟩

/-- `(*InMemoryBackend).Save` (lines 706–720): create the user bucket if
absent, fail if the identifier is already present, insert otherwise. -/
def imSave (b : InMemoryBackend) (s : SessionFull) : Except Unit InMemoryBackend :=
  let sessions := (lookupA b.sessions s.session.base.username).getD []
  match lookupA sessions s.session.id with
  | some _ => .error ()
  | none =>
      .ok { b with
            sessions := updateA b.sessions s.session.base.username
                          (updateA sessions s.session.id ⟨s.session.base, s.agent⟩) }

/-- `(*InMemoryBackend).ListUser` (lines 722–736): the non-expired
sessions of one user. -/
def imListUser (b : InMemoryBackend) (u : Username) (now : Int) : List SessionFull :=
  match lookupA b.sessions u with
  | none => []
  | some sessions =>
      (sessions.filter (fun e => ¬ e.2.base.isExpiredAt now)).map
        (fun e => ⟨⟨e.1, e.2.base⟩, e.2.agent⟩)

/-- `(*InMemoryBackend).Revoke` (lines 738–747): delete from the user's
bucket when that bucket exists, then insert into the revoked map. -/
def imRevoke (b : InMemoryBackend) (s : Session) : InMemoryBackend :=
  { sessions := match lookupA b.sessions s.base.username with
      | none => b.sessions
      | some m => updateA b.sessions s.base.username (eraseA m s.id),
    revoked := updateA b.revoked s.id s.base }

/-- `(*InMemoryBackend).RevokeID` (lines 749–764): only when the session
is found in the named user's bucket: remove it and insert its
`SessionBase` (agent stripped) into the revoked map. -/
def imRevokeID (b : InMemoryBackend) (u : Username) (id : ULID) : InMemoryBackend :=
  match lookupA b.sessions u with
  | none => b
  | some m =>
      match lookupA m id with
      | none => b
      | some sess =>
          { sessions := updateA b.sessions u (eraseA m id),
            revoked := updateA b.revoked id sess.base }

/-- `(*InMemoryBackend).IsRevoked` (lines 766–772): lookup by identifier;
never fails. -/
def imIsRevoked (b : InMemoryBackend) (s : Session) : Bool :=
  (lookupA b.revoked s.id).isSome

/-- `(*InMemoryBackend).ListRevoked` (lines 774–784): the non-expired
revoked sessions. -/
def imListRevoked (b : InMemoryBackend) (now : Int) : List Session :=
  (b.revoked.filter (fun e => ¬ e.2.isExpiredAt now)).map (fun e => ⟨e.1, e.2⟩)

/-- `(*InMemoryBackend).LoadRevocations` (lines 786–798): insert each
entry whose identifier the revoked map does not yet know, counting the
insertions. -/
def imLoadRevocations (b : InMemoryBackend) (list : List Session) : InMemoryBackend × Nat :=
  list.foldl (fun (acc : InMemoryBackend × Nat) s =>
    match lookupA acc.1.revoked s.id with
    | some _ => acc
    | none => ({ acc.1 with revoked := updateA acc.1.revoked s.id s.base }, acc.2 + 1)) (b, 0)

/-- One iteration of the `LoadRevocations` loop, named for the proofs. -/
def loadRevStep (acc : InMemoryBackend × Nat) (s : Session) : InMemoryBackend × Nat :=
  match lookupA acc.1.revoked s.id with
  | some _ => acc
  | none => ({ acc.1 with revoked := updateA acc.1.revoked s.id s.base }, acc.2 + 1)

/-- The inner loop of `(*InMemoryBackend).CollectGarbage` (lines
805–812) over one user's map: delete expired entries, counting them. -/
def imGCUser (now : Int) : InMemorySessionMap → InMemorySessionMap × Nat
  | [] => ([], 0)
  | e :: rest =>
      if e.2.base.isExpiredAt now then
        let p := imGCUser now rest
        (p.1, p.2 + 1)
      else
        let p := imGCUser now rest
        (e :: p.1, p.2)

/-- The second loop of `CollectGarbage` (lines 813–817) over the revoked
map: delete expired entries without counting. -/
def imGCRevoked (now : Int) : List (ULID × SessionBase) → List (ULID × SessionBase)
  | [] => []
  | e :: rest =>
      if e.2.isExpiredAt now then imGCRevoked now rest
      else e :: imGCRevoked now rest

/-- `(*InMemoryBackend).CollectGarbage` (lines 800–820): sweep every
user bucket (summing the deletions), then sweep the revoked map, and
return only the active-bucket count. -/
def imCollectGarbage (b : InMemoryBackend) (now : Int) : InMemoryBackend × Nat :=
  let per := b.sessions.foldl
    (fun (acc : List (Username × InMemorySessionMap) × Nat) p =>
      let q := imGCUser now p.2
      (acc.1 ++ [(p.1, q.1)], acc.2 + q.2)) ([], 0)
  (⟨per.1, imGCRevoked now b.revoked⟩, per.2)

/-! ## The bolt backend's garbage collection
(src/cookie/backend_bolt.go lines 284–342)

A bolt bucket is an ordered list of (16-byte key, value) pairs; the
values hold JSON whose `SessionBase` part is all `deleteExpired` reads
(its own comment), so entries are modelled as carrying that
`SessionBase`. -/

/-- `deleteExpired` (lines 284–307): the cursor walk with
delete-then-reseek; reseeking the just-deleted key of an ordered bucket
yields the next surviving entry, i.e. the walk continues with the rest
of the list. -/
def boltDeleteExpired (now : Int) : List (ULID × SessionBase) → List (ULID × SessionBase) × Nat
  | [] => ([], 0)
  | e :: rest =>
      if e.2.isExpiredAt now then
        let p := boltDeleteExpired now rest
        (p.1, p.2 + 1)
      else
        let p := boltDeleteExpired now rest
        (e :: p.1, p.2)

/-- The two top-level bolt namespaces. -/
structure BoltState where
  sessions : List (Username × List (ULID × SessionBase))
  revoked : List (ULID × SessionBase)
deriving DecidableEq, Repr

/-- `(*BoltBackend).CollectGarbage` (lines 309–342): `deleteExpired` over
every user bucket summing the counts, then over the revoked bucket with
its count discarded. -/
def boltCollectGarbage (b : BoltState) (now : Int) : BoltState × Nat :=
  let per := b.sessions.foldl
    (fun (acc : List (Username × List (ULID × SessionBase)) × Nat) p =>
      let q := boltDeleteExpired now p.2
      (acc.1 ++ [(p.1, q.1)], acc.2 + q.2)) ([], 0)
  (⟨per.1, (boltDeleteExpired now b.revoked).1⟩, per.2)

/-! ## JSON wire form of session lists (src/cookie/store.go lines 104–148)

`Session` marshals as `{"id":"<26 Crockford chars>","u":…,"e":…}`: the
`id` field is the `oklog/ulid` text form, 26 characters of the Crockford
base-32 alphabet covering the 128-bit value big-endian in 5-bit groups
(spec §2: "Crockford base-32 for text"), all of which are
escape-free ASCII for the JSON encoder. -/

/-- The `oklog/ulid` `Encoding` alphabet
`0123456789ABCDEFGHJKMNPQRSTVWXYZ` as ASCII codes. -/
def crockfordEncoding : List Nat :=
  [48, 49, 50, 51, 52, 53, 54, 55, 56, 57, 65, 66, 67, 68, 69, 70,
   71, 72, 74, 75, 77, 78, 80, 81, 82, 83, 84, 86, 87, 88, 89, 90]

/-- The 16 identifier bytes as one big-endian 128-bit number. -/
def bytesToNat (bs : List Nat) : Nat := bs.foldl (fun a b => a * 256 + b) 0

/-- `ulid.ULID.MarshalText`: character `j` carries bits `125−5j … 129−5j`
of the value (the top two of 130 bits are zero). -/
def ulidText (id : ULID) : List Nat :=
  (List.range 26).map (fun j => crockfordEncoding.getD (bytesToNat id / 2 ^ (125 - 5 * j) % 32) 0)

/-- Modelled from the spec: the current `Session` struct
(`ID ulid.ULID` tagged `id`, then the embedded `SessionBase`) is not in
the source snapshot; spec §6.2 fixes its `json.Marshal` form
`{"id":"01H…","u":"alice","e":1732000000}`. -/
def marshalSession (s : Session) : List Nat :=
  [123, 34, 105, 100, 34, 58, 34] ++ ulidText s.id ++
    [34, 44, 34, 117, 34, 58] ++ marshalStringGo s.base.username ++
    [44, 34, 101, 34, 58] ++ marshalInt s.base.expires ++ [125]

/-- `json.Marshal` of `AgentInfo` (src/cookie/store.go lines 114–118):
`{"name":…,"os":…,"device-type":…}`. -/
def marshalAgentInfo (a : AgentInfo) : List Nat :=
  [123, 34, 110, 97, 109, 101, 34, 58] ++ marshalStringGo a.name ++
    [44, 34, 111, 115, 34, 58] ++ marshalStringGo a.os ++
    [44, 34, 100, 101, 118, 105, 99, 101, 45, 116, 121, 112, 101, 34, 58] ++
    marshalStringGo a.deviceType ++ [125]

/-- `json.Marshal` of `SessionFull` (src/cookie/store.go lines 127–130):
the embedded `Session` fields inlined, then `"agent"`. -/
def marshalSessionFull (s : SessionFull) : List Nat :=
  [123, 34, 105, 100, 34, 58, 34] ++ ulidText s.session.id ++
    [34, 44, 34, 117, 34, 58] ++ marshalStringGo s.session.base.username ++
    [44, 34, 101, 34, 58] ++ marshalInt s.session.base.expires ++
    [44, 34, 97, 103, 101, 110, 116, 34, 58] ++ marshalAgentInfo s.agent ++ [125]

/-- Comma-join, as `json.Marshal` renders slice elements. -/
def joinComma : List (List Nat) → List Nat
  | [] => []
  | [x] => x
  | x :: rest => x ++ 44 :: joinComma rest

/-- `json.Marshal` of a non-nil Go slice: `[e1,…,en]`. -/
def goMarshalSlice (f : α → List Nat) (l : List α) : List Nat :=
  91 :: joinComma (l.map f) ++ [93]

/-- `SessionList.MarshalJSON` (src/cookie/store.go lines 104–112):
`[]` for length zero (including the nil slice), the plain slice
marshalling otherwise. -/
def sessionListMarshalJSON (l : List Session) : List Nat :=
  if l.length = 0 then [91, 93] else goMarshalSlice marshalSession l

/-- `SessionFullList.MarshalJSON` (src/cookie/store.go lines 140–148). -/
def sessionFullListMarshalJSON (l : List SessionFull) : List Nat :=
  if l.length = 0 then [91, 93] else goMarshalSlice marshalSessionFull l

/-- `SignedRevocationList` (src/cookie/store.go lines 150–153):
`Revoked` holds raw JSON bytes, `Signature` raw signature bytes
(the Go nil slice is `[]`). -/
structure SignedRevocationList where
  revoked : List Nat
  signature : List Nat
deriving DecidableEq, Repr

/-- `(*Store).ListRevoked` (src/cookie/store.go lines 536–551): marshal
the backend's list (`SessionList` marshalling), then sign only when
`st.signer != nil`; with no signer the `Signature` field keeps its zero
value. The backend call and the signer may fail. -/
def storeListRevoked (signer : Option (List Nat → Except Unit (List Nat)))
    (backendList : Except Unit (List Session)) : Except Unit SignedRevocationList :=
  match backendList with
  | .error _ => .error ()
  | .ok revoked =>
      let rev := sessionListMarshalJSON revoked
      match signer with
      | none => .ok ⟨rev, []⟩
      | some sign =>
          match sign rev with
          | .error _ => .error ()
          | .ok sig => .ok ⟨rev, sig⟩

/-! ## Sequences of backend operations -/

/-- One mutating call of the `StoreBackend` interface against the
in-memory backend (`ListUser`, `ListRevoked`, `IsRevoked` are reads). -/
inductive BackendOp
  | save (s : SessionFull)
  | revoke (s : Session)
  | revokeID (u : Username) (id : ULID)
  | loadRevocations (l : List Session)
  | collectGarbage (now : Int)

/-- Whether the operation is the garbage-collection sweep. -/
def BackendOp.isGC : BackendOp → Bool
  | .collectGarbage _ => true
  | _ => false

/-- The state after one operation (a failed `Save` leaves the state as it
was; the Go method returns before touching the map). -/
def applyOp (b : InMemoryBackend) : BackendOp → InMemoryBackend
  | .save s =>
      match imSave b s with
      | .ok b2 => b2
      | .error _ => b
  | .revoke s => imRevoke b s
  | .revokeID u id => imRevokeID b u id
  | .loadRevocations l => (imLoadRevocations b l).1
  | .collectGarbage now => (imCollectGarbage b now).1

/-- The state after a sequence of operations. -/
def applyOps (b : InMemoryBackend) (ops : List BackendOp) : InMemoryBackend :=
  ops.foldl applyOp b

/-- The in-memory backend states reachable from a fresh
`NewInMemoryBackend` by `StoreBackend` calls. -/
def ReachableIM (b : InMemoryBackend) : Prop :=
  ∃ ops : List BackendOp, applyOps InMemoryBackend.empty ops = b

/-- Keys of an association list are pairwise distinct — automatic for a
Go map, an invariant of the embedding's lists. -/
def NodupKeys {α β : Type} (l : List (α × β)) : Prop :=
  (l.map Prod.fst).Nodup

/-- Every bucket of the per-user session map has distinct identifiers. -/
def BucketsNodup (b : InMemoryBackend) : Prop :=
  ∀ u m, lookupA b.sessions u = some m → NodupKeys m

/-- `(*BoltBackend).LoadRevocations` (src/cookie/backend_bolt.go lines
259–282): for each listed session whose identifier the revoked bucket
does not yet hold (`revoked.Get(...) == nil`), `Put` its marshalled
session data — whose `SessionBase` part is all later readers use —
under the identifier and count the insertion. -/
def boltLoadRevocations (b : BoltState) (list : List Session) : BoltState × Nat :=
  list.foldl (fun (acc : BoltState × Nat) s =>
    match lookupA acc.1.revoked s.id with
    | some _ => acc
    | none => ({ acc.1 with revoked := updateA acc.1.revoked s.id s.base }, acc.2 + 1)) (b, 0)

/-- One iteration of the bolt `LoadRevocations` loop, named for the
proofs. -/
def boltLoadRevStep (acc : BoltState × Nat) (s : Session) : BoltState × Nat :=
  match lookupA acc.1.revoked s.id with
  | some _ => acc
  | none => ({ acc.1 with revoked := updateA acc.1.revoked s.id s.base }, acc.2 + 1)

/-! ## Background-loop intervals (src/cookie/store.go lines 363–387) -/

/-- `time.Second` in nanoseconds (Go durations are int64 nanoseconds). -/
def timeSecondNs : Int := 1000000000

/-- GC interval selection in `(*Store).initBackend` (lines 364–367):
`if conf.Backend.GCInterval <= time.Second` override to 5 minutes. -/
def effectiveGCInterval (configured : Int) : Int :=
  if configured ≤ timeSecondNs then 300000000000 else configured

/-- Sync interval selection (lines 378–381):
`if conf.Backend.Sync.Interval <= time.Second` override to 10 seconds. -/
def effectiveSyncInterval (configured : Int) : Int :=
  if configured ≤ timeSecondNs then 10000000000 else configured

/-! ## Association-list lemmas -/

theorem lookupA_updateA_self {α β : Type} [DecidableEq α] (l : List (α × β)) (k : α) (v : β) :
    lookupA (updateA l k v) k = some v := by
  induction l with
  | nil => simp [updateA, lookupA]
  | cons p rest ih =>
      obtain ⟨a, w⟩ := p
      by_cases h : a = k
      · simp [updateA, h, lookupA]
      · simp [updateA, h, lookupA, ih]

theorem lookupA_updateA_ne {α β : Type} [DecidableEq α] (l : List (α × β)) (k k' : α) (v : β)
    (h : k' ≠ k) : lookupA (updateA l k v) k' = lookupA l k' := by
  induction l with
  | nil => simp [updateA, lookupA, Ne.symm h]
  | cons p rest ih =>
      obtain ⟨a, w⟩ := p
      by_cases ha : a = k
      · subst ha
        simp [updateA, lookupA, Ne.symm h]
      · simp [updateA, ha, lookupA, ih]

theorem lookupA_updateA_isSome {α β : Type} [DecidableEq α] (l : List (α × β)) (k k' : α)
    (v : β) (h : (lookupA l k').isSome = true) :
    (lookupA (updateA l k v) k').isSome = true := by
  by_cases hk : k' = k
  · subst hk; rw [lookupA_updateA_self]; rfl
  · rw [lookupA_updateA_ne _ _ _ _ hk]; exact h

theorem lookupA_eraseA_ne {α β : Type} [DecidableEq α] (l : List (α × β)) (k k' : α)
    (h : k' ≠ k) : lookupA (eraseA l k) k' = lookupA l k' := by
  induction l with
  | nil => rfl
  | cons p rest ih =>
      obtain ⟨a, w⟩ := p
      by_cases ha : a = k
      · subst ha
        simp [eraseA, lookupA, Ne.symm h]
      · simp [eraseA, ha, lookupA, ih]

theorem lookupA_eq_none {α β : Type} [DecidableEq α] (l : List (α × β)) (k : α)
    (h : k ∉ l.map Prod.fst) : lookupA l k = none := by
  induction l with
  | nil => rfl
  | cons p rest ih =>
      obtain ⟨a, w⟩ := p
      simp only [List.map_cons, List.mem_cons, not_or] at h
      simp [lookupA, Ne.symm h.1, ih h.2]

theorem lookupA_eraseA_self {α β : Type} [DecidableEq α] (l : List (α × β)) (k : α)
    (h : NodupKeys l) : lookupA (eraseA l k) k = none := by
  induction l with
  | nil => rfl
  | cons p rest ih =>
      obtain ⟨a, w⟩ := p
      simp only [NodupKeys, List.map_cons, List.nodup_cons] at h
      by_cases ha : a = k
      · subst ha
        simp only [eraseA, if_pos rfl]
        exact lookupA_eq_none rest a h.1
      · simp only [eraseA, if_neg ha, lookupA, if_neg ha]
        exact ih h.2

theorem mem_keys_updateA {α β : Type} [DecidableEq α] (l : List (α × β)) (k : α) (v : β)
    (x : α) : x ∈ (updateA l k v).map Prod.fst ↔ x ∈ l.map Prod.fst ∨ x = k := by
  induction l with
  | nil => simp [updateA]
  | cons p rest ih =>
      obtain ⟨a, w⟩ := p
      by_cases ha : a = k
      · subst ha
        have hu : updateA ((a, w) :: rest) a v = (a, v) :: rest := by simp [updateA]
        rw [hu]
        simp only [List.map_cons, List.mem_cons]
        tauto
      · simp only [updateA, if_neg ha, List.map_cons, List.mem_cons, ih]
        tauto

theorem nodupKeys_updateA {α β : Type} [DecidableEq α] (l : List (α × β)) (k : α) (v : β)
    (h : NodupKeys l) : NodupKeys (updateA l k v) := by
  induction l with
  | nil => simp [updateA, NodupKeys]
  | cons p rest ih =>
      obtain ⟨a, w⟩ := p
      simp only [NodupKeys, List.map_cons, List.nodup_cons] at h
      by_cases ha : a = k
      · subst ha
        simpa [NodupKeys, updateA] using h
      · simp only [NodupKeys, updateA, if_neg ha, List.map_cons, List.nodup_cons]
        refine ⟨?_, ih h.2⟩
        rw [mem_keys_updateA]
        rintro (hm | rfl)
        · exact h.1 hm
        · exact ha rfl

theorem eraseA_sublist {α β : Type} [DecidableEq α] (l : List (α × β)) (k : α) :
    (eraseA l k).Sublist l := by
  induction l with
  | nil => exact List.Sublist.refl []
  | cons p rest ih =>
      obtain ⟨a, w⟩ := p
      by_cases ha : a = k
      · simp only [eraseA, if_pos ha]
        exact List.sublist_cons_self (a, w) rest
      · simp only [eraseA, if_neg ha]
        exact ih.cons₂ (a, w)

theorem nodupKeys_eraseA {α β : Type} [DecidableEq α] (l : List (α × β)) (k : α)
    (h : NodupKeys l) : NodupKeys (eraseA l k) :=
  List.Nodup.sublist ((eraseA_sublist l k).map Prod.fst) h

theorem nodupKeys_filter {α β : Type} [DecidableEq α] (l : List (α × β))
    (p : α × β → Bool) (h : NodupKeys l) : NodupKeys (l.filter p) :=
  List.Nodup.sublist ((List.filter_sublist l).map Prod.fst) h

theorem lookupA_map_value {α β γ : Type} [DecidableEq α] (l : List (α × β)) (f : β → γ)
    (k : α) : lookupA (l.map (fun p => (p.1, f p.2))) k = (lookupA l k).map f := by
  induction l with
  | nil => rfl
  | cons p rest ih =>
      obtain ⟨a, w⟩ := p
      by_cases ha : a = k
      · simp [lookupA, ha]
      · simp [lookupA, ha, ih]

/-! ## `LoadRevocations` lemmas -/

theorem imLoadRevocations_eq_foldl (b : InMemoryBackend) (l : List Session) :
    imLoadRevocations b l = l.foldl loadRevStep (b, 0) := rfl

theorem loadRev_shift (l : List Session) (b : InMemoryBackend) (n : Nat) :
    l.foldl loadRevStep (b, n)
      = ((l.foldl loadRevStep (b, 0)).1, n + (l.foldl loadRevStep (b, 0)).2) := by
  induction l generalizing b n with
  | nil => simp
  | cons s l ih =>
      simp only [List.foldl_cons]
      cases hl : lookupA b.revoked s.id with
      | some x =>
          simp only [loadRevStep, hl]
          exact ih b n
      | none =>
          simp only [loadRevStep, hl]
          rw [ih _ (n + 1), ih _ (0 + 1)]
          exact Prod.ext rfl (by omega)

theorem loadRev_cons_known (b : InMemoryBackend) (s : Session) (l : List Session) (x : SessionBase)
    (h : lookupA b.revoked s.id = some x) :
    (s :: l).foldl loadRevStep (b, 0) = l.foldl loadRevStep (b, 0) := by
  simp only [List.foldl_cons, loadRevStep, h]

theorem loadRev_cons_new (b : InMemoryBackend) (s : Session) (l : List Session)
    (h : lookupA b.revoked s.id = none) :
    (s :: l).foldl loadRevStep (b, 0)
      = ((l.foldl loadRevStep ({ b with revoked := updateA b.revoked s.id s.base }, 0)).1,
         (l.foldl loadRevStep ({ b with revoked := updateA b.revoked s.id s.base }, 0)).2 + 1) := by
  simp only [List.foldl_cons, loadRevStep, h]
  rw [loadRev_shift]
  exact Prod.ext rfl (by omega)

theorem loadRev_mem (l : List Session) (b : InMemoryBackend) (id : ULID) :
    (lookupA (l.foldl loadRevStep (b, 0)).1.revoked id).isSome = true
      ↔ ((lookupA b.revoked id).isSome = true ∨ ∃ s ∈ l, s.id = id) := by
  induction l generalizing b with
  | nil => simp
  | cons s l ih =>
      have hsid : s.id = id → (lookupA b.revoked s.id).isSome = true →
          (lookupA b.revoked id).isSome = true := by
        rintro rfl h; exact h
      cases hl : lookupA b.revoked s.id with
      | some x =>
          rw [loadRev_cons_known b s l x hl, ih]
          simp only [List.mem_cons, exists_eq_or_imp]
          have : s.id = id → (lookupA b.revoked id).isSome = true :=
            fun he => hsid he (by rw [hl]; rfl)
          tauto
      | none =>
          rw [loadRev_cons_new b s l hl]
          simp only [ih]
          have hup : (lookupA (updateA b.revoked s.id s.base) id).isSome = true
              ↔ (id = s.id ∨ (lookupA b.revoked id).isSome = true) := by
            by_cases hid : id = s.id
            · subst hid; rw [lookupA_updateA_self]; simp
            · rw [lookupA_updateA_ne _ _ _ _ hid]; simp [hid]
          rw [hup]
          simp only [List.mem_cons, exists_eq_or_imp]
          constructor
          · rintro ((rfl | hb) | hex)
            · exact Or.inr (Or.inl rfl)
            · exact Or.inl hb
            · exact Or.inr (Or.inr hex)
          · rintro (hb | (he | hex))
            · exact Or.inl (Or.inr hb)
            · exact Or.inl (Or.inl he.symm)
            · exact Or.inr hex

theorem loadRev_noop (l : List Session) (b : InMemoryBackend)
    (h : ∀ s ∈ l, (lookupA b.revoked s.id).isSome = true) :
    l.foldl loadRevStep (b, 0) = (b, 0) := by
  induction l with
  | nil => rfl
  | cons s l ih =>
      obtain ⟨x, hx⟩ := Option.isSome_iff_exists.mp (h s (List.mem_cons_self s l))
      rw [loadRev_cons_known b s l x hx]
      exact ih (fun t ht => h t (List.mem_cons_of_mem s ht))

theorem loadRev_count (l : List Session) (b : InMemoryBackend)
    (h : (l.map Session.id).Nodup) :
    (l.foldl loadRevStep (b, 0)).2
      = (l.filter (fun s => (lookupA b.revoked s.id).isNone)).length := by
  induction l generalizing b with
  | nil => rfl
  | cons s l ih =>
      simp only [List.map_cons, List.nodup_cons] at h
      cases hb : lookupA b.revoked s.id with
      | some x =>
          rw [loadRev_cons_known b s l x hb, List.filter_cons]
          simp only [hb, Option.isNone_some, if_false]
          exact ih b h.2
      | none =>
          rw [loadRev_cons_new b s l]
          · simp only [List.filter_cons, hb, Option.isNone_none, if_true, List.length_cons]
            rw [ih _ h.2]
            have hcong : l.filter (fun t => (lookupA (updateA b.revoked s.id s.base) t.id).isNone)
                = l.filter (fun t => (lookupA b.revoked t.id).isNone) := by
              refine List.filter_congr (fun t ht => ?_)
              rw [lookupA_updateA_ne]
              intro he
              exact h.1 (he ▸ List.mem_map_of_mem Session.id ht)
            rw [hcong]
          · exact hb

theorem loadRev_sessions (l : List Session) (b : InMemoryBackend) (n : Nat) :
    (l.foldl loadRevStep (b, n)).1.sessions = b.sessions := by
  induction l generalizing b n with
  | nil => rfl
  | cons s l ih =>
      simp only [List.foldl_cons]
      cases hl : lookupA b.revoked s.id with
      | some x => simp only [loadRevStep, hl]; exact ih b n
      | none => simp only [loadRevStep, hl]; exact ih _ (n + 1)

/-! ### The same facts for the bolt backend's `LoadRevocations` -/

theorem boltLoadRevocations_eq_foldl (b : BoltState) (l : List Session) :
    boltLoadRevocations b l = l.foldl boltLoadRevStep (b, 0) := rfl

theorem bLoadRev_shift (l : List Session) (b : BoltState) (n : Nat) :
    l.foldl boltLoadRevStep (b, n)
      = ((l.foldl boltLoadRevStep (b, 0)).1, n + (l.foldl boltLoadRevStep (b, 0)).2) := by
  induction l generalizing b n with
  | nil => simp
  | cons s l ih =>
      simp only [List.foldl_cons]
      cases hl : lookupA b.revoked s.id with
      | some x =>
          simp only [boltLoadRevStep, hl]
          exact ih b n
      | none =>
          simp only [boltLoadRevStep, hl]
          rw [ih _ (n + 1), ih _ (0 + 1)]
          exact Prod.ext rfl (by omega)

theorem bLoadRev_cons_known (b : BoltState) (s : Session) (l : List Session) (x : SessionBase)
    (h : lookupA b.revoked s.id = some x) :
    (s :: l).foldl boltLoadRevStep (b, 0) = l.foldl boltLoadRevStep (b, 0) := by
  simp only [List.foldl_cons, boltLoadRevStep, h]

theorem bLoadRev_cons_new (b : BoltState) (s : Session) (l : List Session)
    (h : lookupA b.revoked s.id = none) :
    (s :: l).foldl boltLoadRevStep (b, 0)
      = ((l.foldl boltLoadRevStep ({ b with revoked := updateA b.revoked s.id s.base }, 0)).1,
         (l.foldl boltLoadRevStep ({ b with revoked := updateA b.revoked s.id s.base }, 0)).2 + 1) := by
  simp only [List.foldl_cons, boltLoadRevStep, h]
  rw [bLoadRev_shift]
  exact Prod.ext rfl (by omega)

theorem bLoadRev_mem (l : List Session) (b : BoltState) (id : ULID) :
    (lookupA (l.foldl boltLoadRevStep (b, 0)).1.revoked id).isSome = true
      ↔ ((lookupA b.revoked id).isSome = true ∨ ∃ s ∈ l, s.id = id) := by
  induction l generalizing b with
  | nil => simp
  | cons s l ih =>
      cases hl : lookupA b.revoked s.id with
      | some x =>
          rw [bLoadRev_cons_known b s l x hl, ih]
          simp only [List.mem_cons, exists_eq_or_imp]
          have : s.id = id → (lookupA b.revoked id).isSome = true := by
            rintro rfl
            rw [hl]
            rfl
          tauto
      | none =>
          rw [bLoadRev_cons_new b s l hl]
          simp only [ih]
          have hup : (lookupA (updateA b.revoked s.id s.base) id).isSome = true
              ↔ (id = s.id ∨ (lookupA b.revoked id).isSome = true) := by
            by_cases hid : id = s.id
            · subst hid; rw [lookupA_updateA_self]; simp
            · rw [lookupA_updateA_ne _ _ _ _ hid]; simp [hid]
          rw [hup]
          simp only [List.mem_cons, exists_eq_or_imp]
          constructor
          · rintro ((rfl | hb) | hex)
            · exact Or.inr (Or.inl rfl)
            · exact Or.inl hb
            · exact Or.inr (Or.inr hex)
          · rintro (hb | (he | hex))
            · exact Or.inl (Or.inr hb)
            · exact Or.inl (Or.inl he.symm)
            · exact Or.inr hex

theorem bLoadRev_noop (l : List Session) (b : BoltState)
    (h : ∀ s ∈ l, (lookupA b.revoked s.id).isSome = true) :
    l.foldl boltLoadRevStep (b, 0) = (b, 0) := by
  induction l with
  | nil => rfl
  | cons s l ih =>
      obtain ⟨x, hx⟩ := Option.isSome_iff_exists.mp (h s (List.mem_cons_self s l))
      rw [bLoadRev_cons_known b s l x hx]
      exact ih (fun t ht => h t (List.mem_cons_of_mem s ht))

theorem bLoadRev_count (l : List Session) (b : BoltState)
    (h : (l.map Session.id).Nodup) :
    (l.foldl boltLoadRevStep (b, 0)).2
      = (l.filter (fun s => (lookupA b.revoked s.id).isNone)).length := by
  induction l generalizing b with
  | nil => rfl
  | cons s l ih =>
      simp only [List.map_cons, List.nodup_cons] at h
      cases hb : lookupA b.revoked s.id with
      | some x =>
          rw [bLoadRev_cons_known b s l x hb, List.filter_cons]
          simp only [hb, Option.isNone_some, if_false]
          exact ih b h.2
      | none =>
          rw [bLoadRev_cons_new b s l]
          · simp only [List.filter_cons, hb, Option.isNone_none, if_true, List.length_cons]
            rw [ih _ h.2]
            have hcong : l.filter (fun t => (lookupA (updateA b.revoked s.id s.base) t.id).isNone)
                = l.filter (fun t => (lookupA b.revoked t.id).isNone) := by
              refine List.filter_congr (fun t ht => ?_)
              rw [lookupA_updateA_ne]
              intro he
              exact h.1 (he ▸ List.mem_map_of_mem Session.id ht)
            rw [hcong]
          · exact hb

theorem bLoadRev_sessions (l : List Session) (b : BoltState) (n : Nat) :
    (l.foldl boltLoadRevStep (b, n)).1.sessions = b.sessions := by
  induction l generalizing b n with
  | nil => rfl
  | cons s l ih =>
      simp only [List.foldl_cons]
      cases hl : lookupA b.revoked s.id with
      | some x => simp only [boltLoadRevStep, hl]; exact ih b n
      | none => simp only [boltLoadRevStep, hl]; exact ih _ (n + 1)

/-! ## Persistence of revocations across backend operations -/

theorem imSave_revoked (b : InMemoryBackend) (s : SessionFull) (b2 : InMemoryBackend)
    (h : imSave b s = .ok b2) : b2.revoked = b.revoked := by
  simp only [imSave] at h
  split at h
  · cases h
  · cases h
    rfl

theorem applyOp_revoked_persist (b : InMemoryBackend) (op : BackendOp) (id : ULID)
    (hop : op.isGC = false) (h : (lookupA b.revoked id).isSome = true) :
    (lookupA (applyOp b op).revoked id).isSome = true := by
  cases op with
  | save s =>
      simp only [applyOp]
      cases hs : imSave b s with
      | ok b2 => rw [imSave_revoked b s b2 hs]; exact h
      | error e => exact h
  | revoke s =>
      simp only [applyOp, imRevoke]
      exact lookupA_updateA_isSome _ _ _ _ h
  | revokeID u i =>
      cases h1 : lookupA b.sessions u with
      | none => simpa only [applyOp, imRevokeID, h1] using h
      | some m =>
          cases h2 : lookupA m i with
          | none => simpa only [applyOp, imRevokeID, h1, h2] using h
          | some sess =>
              simp only [applyOp, imRevokeID, h1, h2]
              exact lookupA_updateA_isSome _ _ _ _ h
  | loadRevocations l =>
      simp only [applyOp, imLoadRevocations_eq_foldl]
      exact (loadRev_mem l b id).mpr (Or.inl h)
  | collectGarbage now => simp [BackendOp.isGC] at hop

theorem applyOps_revoked_persist (ops : List BackendOp) (b : InMemoryBackend) (id : ULID)
    (hops : ∀ op ∈ ops, op.isGC = false) (h : (lookupA b.revoked id).isSome = true) :
    (lookupA (applyOps b ops).revoked id).isSome = true := by
  induction ops generalizing b with
  | nil => exact h
  | cons op ops ih =>
      simp only [applyOps, List.foldl_cons]
      exact ih (applyOp b op) (fun o ho => hops o (List.mem_cons_of_mem op ho))
        (applyOp_revoked_persist b op id (hops op (List.mem_cons_self op ops)) h)

/-! ## Garbage-collection characterizations -/

theorem imGCUser_eq (now : Int) (m : InMemorySessionMap) :
    imGCUser now m = (m.filter (fun e => ! e.2.base.isExpiredAt now),
                      m.countP (fun e => e.2.base.isExpiredAt now)) := by
  induction m with
  | nil => rfl
  | cons e rest ih =>
      cases he : e.2.base.isExpiredAt now with
      | true =>
          simp only [imGCUser, he, if_true, ih, List.filter_cons, List.countP_cons,
            Bool.not_true, if_false]
          exact Prod.ext rfl (by simp)
      | false =>
          simp only [imGCUser, he, if_false, ih, List.filter_cons, List.countP_cons,
            Bool.not_false, if_true]
          exact Prod.ext rfl (by simp)

theorem imGCRevoked_eq (now : Int) (l : List (ULID × SessionBase)) :
    imGCRevoked now l = l.filter (fun e => ! e.2.isExpiredAt now) := by
  induction l with
  | nil => rfl
  | cons e rest ih =>
      cases he : e.2.isExpiredAt now with
      | true => simp [imGCRevoked, he, ih, List.filter_cons]
      | false => simp [imGCRevoked, he, ih, List.filter_cons]

theorem boltDeleteExpired_eq (now : Int) (l : List (ULID × SessionBase)) :
    boltDeleteExpired now l = (l.filter (fun e => ! e.2.isExpiredAt now),
                               l.countP (fun e => e.2.isExpiredAt now)) := by
  induction l with
  | nil => rfl
  | cons e rest ih =>
      cases he : e.2.isExpiredAt now with
      | true =>
          simp only [boltDeleteExpired, he, if_true, ih, List.filter_cons, List.countP_cons,
            Bool.not_true, if_false]
          exact Prod.ext rfl (by simp)
      | false =>
          simp only [boltDeleteExpired, he, if_false, ih, List.filter_cons, List.countP_cons,
            Bool.not_false, if_true]
          exact Prod.ext rfl (by simp)

theorem gcFold_eq {γ : Type} (g : γ → γ × Nat) (l : List (Username × γ))
    (acc : List (Username × γ)) (n : Nat) :
    l.foldl (fun (acc : List (Username × γ) × Nat) p =>
        let q := g p.2
        (acc.1 ++ [(p.1, q.1)], acc.2 + q.2)) (acc, n)
      = (acc ++ l.map (fun p => (p.1, (g p.2).1)), n + (l.map (fun p => (g p.2).2)).sum) := by
  induction l generalizing acc n with
  | nil => simp
  | cons p l ih =>
      simp only [List.foldl_cons, List.map_cons, List.sum_cons]
      rw [ih]
      refine Prod.ext ?_ (by simp; omega)
      simp [List.append_assoc]

theorem imCollectGarbage_eq (b : InMemoryBackend) (now : Int) :
    imCollectGarbage b now
      = (⟨b.sessions.map (fun p => (p.1, p.2.filter (fun e => ! e.2.base.isExpiredAt now))),
          b.revoked.filter (fun e => ! e.2.isExpiredAt now)⟩,
         (b.sessions.map (fun p => p.2.countP (fun e => e.2.base.isExpiredAt now))).sum) := by
  unfold imCollectGarbage
  rw [gcFold_eq (imGCUser now) b.sessions [] 0]
  simp only [List.nil_append, Nat.zero_add, imGCUser_eq, imGCRevoked_eq]

theorem boltCollectGarbage_eq (b : BoltState) (now : Int) :
    boltCollectGarbage b now
      = (⟨b.sessions.map (fun p => (p.1, p.2.filter (fun e => ! e.2.isExpiredAt now))),
          b.revoked.filter (fun e => ! e.2.isExpiredAt now)⟩,
         (b.sessions.map (fun p => p.2.countP (fun e => e.2.isExpiredAt now))).sum) := by
  unfold boltCollectGarbage
  rw [gcFold_eq (boltDeleteExpired now) b.sessions [] 0]
  simp only [List.nil_append, Nat.zero_add, boltDeleteExpired_eq]

/-! ## Bucket-key distinctness along reachable states -/

theorem applyOp_bucketsNodup (b : InMemoryBackend) (op : BackendOp)
    (h : BucketsNodup b) : BucketsNodup (applyOp b op) := by
  cases op with
  | save s =>
      simp only [applyOp]
      cases hs : imSave b s with
      | error e => exact h
      | ok b2 =>
          show BucketsNodup b2
          simp only [imSave] at hs
          split at hs
          · cases hs
          · cases hs
            intro u m hm
            by_cases hu : u = s.session.base.username
            · subst hu
              rw [lookupA_updateA_self] at hm
              cases hm
              apply nodupKeys_updateA
              cases hb : lookupA b.sessions s.session.base.username with
              | none => simp [hb, NodupKeys, Option.getD]
              | some m0 => simpa [hb] using h _ m0 hb
            · rw [lookupA_updateA_ne _ _ _ _ hu] at hm
              exact h u m hm
  | revoke s =>
      intro u m hm
      simp only [applyOp, imRevoke] at hm
      cases hb : lookupA b.sessions s.base.username with
      | none =>
          simp only [hb] at hm
          exact h u m hm
      | some m0 =>
          simp only [hb] at hm
          by_cases hu : u = s.base.username
          · subst hu
            rw [lookupA_updateA_self] at hm
            cases hm
            exact nodupKeys_eraseA _ _ (h _ m0 hb)
          · rw [lookupA_updateA_ne _ _ _ _ hu] at hm
            exact h u m hm
  | revokeID u0 i =>
      intro u m hm
      cases h1 : lookupA b.sessions u0 with
      | none =>
          simp only [applyOp, imRevokeID, h1] at hm
          exact h u m hm
      | some m0 =>
          cases h2 : lookupA m0 i with
          | none =>
              simp only [applyOp, imRevokeID, h1, h2] at hm
              exact h u m hm
          | some sess =>
              simp only [applyOp, imRevokeID, h1, h2] at hm
              by_cases hu : u = u0
              · subst hu
                rw [lookupA_updateA_self] at hm
                cases hm
                exact nodupKeys_eraseA _ _ (h _ m0 h1)
              · rw [lookupA_updateA_ne _ _ _ _ hu] at hm
                exact h u m hm
  | loadRevocations l =>
      intro u m hm
      simp only [applyOp, imLoadRevocations_eq_foldl] at hm
      rw [loadRev_sessions] at hm
      exact h u m hm
  | collectGarbage now =>
      intro u m hm
      simp only [applyOp, imCollectGarbage_eq] at hm
      rw [lookupA_map_value] at hm
      cases hb : lookupA b.sessions u with
      | none => rw [hb] at hm; cases hm
      | some m0 =>
          rw [hb] at hm
          cases hm
          exact nodupKeys_filter _ _ (h u m0 hb)

theorem applyOps_bucketsNodup (ops : List BackendOp) (b : InMemoryBackend)
    (h : BucketsNodup b) : BucketsNodup (applyOps b ops) := by
  induction ops generalizing b with
  | nil => exact h
  | cons op ops ih =>
      simp only [applyOps, List.foldl_cons]
      exact ih (applyOp b op) (applyOp_bucketsNodup b op h)

theorem reachable_bucketsNodup (b : InMemoryBackend) (h : ReachableIM b) :
    BucketsNodup b := by
  obtain ⟨ops, rfl⟩ := h
  exact applyOps_bucketsNodup ops InMemoryBackend.empty
    (fun u m hm => by simp [InMemoryBackend.empty, lookupA] at hm)

/-! ## Concrete instances used by the claim witnesses and counterexamples -/

/-- A concrete 16-byte identifier. -/
def wID : List Nat := List.range 16

/-- A concrete `SessionBase`: username `"a"`, expiry at Unix second 100. -/
def wSB : SessionBase := ⟨[97], 100⟩

/-- The session with identifier `wID` and base `wSB`. -/
def wS : Session := ⟨wID, wSB⟩

/-- `wS` with an empty `AgentInfo`. -/
def wSF : SessionFull := ⟨wS, ⟨[], [], []⟩⟩

/-- A one-element key set whose key accepts everything. -/
def wKeys : List (List Nat → List Nat → Bool) := [fun _ _ => true]

/-- A revocation check that reports nothing revoked. -/
def wIsRev : Session → Except Unit Bool := fun _ => .ok false

/-- An already-expired session (expiry at Unix second 0). -/
def cx2S : Session := ⟨List.replicate 16 1, ⟨[97], 0⟩⟩

/-- The state after revoking `cx2S` on a fresh in-memory backend. -/
def cx2B : InMemoryBackend := imRevoke InMemoryBackend.empty cx2S

/-- A well-formed, signed cookie carrying `cx2S`. -/
def cx2Cookie : List Nat :=
  valueString { MakeValue cx2S.id cx2S.base with signature := [115] }

/-- The state after revoking `wS` on a fresh in-memory backend. -/
def w2B : InMemoryBackend := imRevoke InMemoryBackend.empty wS

/-- A well-formed, signed cookie carrying `wS`. -/
def w2Cookie : List Nat :=
  valueString { MakeValue wS.id wS.base with signature := [115] }

/-- The state reached by saving `wSF` and then loading `[wS]` as an
external revocation list. -/
def cx5B : InMemoryBackend :=
  applyOps InMemoryBackend.empty [BackendOp.save wSF, BackendOp.loadRevocations [wS]]

/-- Full codec round-trip for a cookie built from an identifier, a
`SessionBase` and a nonempty signature. -/
theorem cookieRoundtrip (id : List Nat) (sb : SessionBase) (sig : List Nat)
    (hlen : id.length = ulidLength) (hid : ∀ b ∈ id, b < 256)
    (hsig : sig ≠ []) (hsigb : ∀ b ∈ sig, b < 256)
    (hu : ∀ r ∈ sb.username, ValidRune r) :
    fromString (valueString { MakeValue id sb with signature := sig })
      = .ok { MakeValue id sb with signature := sig }
    ∧ valueID { MakeValue id sb with signature := sig } = some id
    ∧ valueSession { MakeValue id sb with signature := sig } = .ok ⟨id, sb⟩
    ∧ valueSessionBase { MakeValue id sb with signature := sig } = some sb := by
  have hpay : ({ MakeValue id sb with signature := sig } : Value).payload
      = id ++ marshalSessionBase sb := rfl
  have hplen : ulidLength < (id ++ marshalSessionBase sb).length := by
    rw [List.length_append, hlen]
    have := List.length_pos.mpr (marshalSessionBase_ne_nil sb)
    simp only [ulidLength]
    omega
  have htake : (id ++ marshalSessionBase sb).take ulidLength = id := by
    rw [← hlen, List.take_left]
  have hdrop : (id ++ marshalSessionBase sb).drop ulidLength = marshalSessionBase sb := by
    rw [← hlen, List.drop_left]
  refine ⟨?_, ?_, ?_, ?_⟩
  · apply fromString_valueString
    · rw [hpay]
      intro hnil
      have h0 : (id ++ marshalSessionBase sb).length = 0 := by rw [hnil]; rfl
      rw [List.length_append, hlen] at h0
      simp only [ulidLength] at h0
      omega
    · rw [hpay]
      intro b hb
      rcases List.mem_append.mp hb with h1 | h2
      · exact hid b h1
      · exact marshalSessionBase_lt sb hu b h2
    · exact hsig
    · exact hsigb
    · rw [hpay]
      exact hplen
  · simp only [valueID]
    rw [hpay, htake, hlen]
    simp
  · simp only [valueSession]
    rw [hpay, hdrop, unmarshalSessionBase_marshal sb hu, htake, hlen]
    simp
  · simp only [valueSessionBase]
    rw [hpay, hdrop]
    exact unmarshalSessionBase_marshal sb hu

/-! ## The claims -/

/-- C1: `(*Store).verify` checks its rejection reasons in source order —
codec failure (`malformed`), then signature acceptance by some key of the
(always nonempty, by `initKeys`) key set (`badSignature`), then payload
decoding (`decodeFailed`), then expiry (`expired`), then the back-end
revocation query (`backendFailed` when the query fails, `revoked` when it
reports true), and otherwise returns the decoded session. -/
theorem claim_C1 (keys : List (List Nat → List Nat → Bool))
    (isRev : Session → Except Unit Bool) (now : Int) (c : List Nat) :
    (∀ e, fromString c = .error e →
        storeVerify keys isRev now c = .error (.malformed e))
    ∧ (∀ v, fromString c = .ok v → keys ≠ [] →
        keys.any (fun k => k v.payload v.signature) = false →
        storeVerify keys isRev now c = .error .badSignature)
    ∧ (∀ v e, fromString c = .ok v →
        (keys.isEmpty || keys.any (fun k => k v.payload v.signature)) = true →
        valueSession v = .error e →
        storeVerify keys isRev now c = .error (.decodeFailed e))
    ∧ (∀ v s, fromString c = .ok v →
        (keys.isEmpty || keys.any (fun k => k v.payload v.signature)) = true →
        valueSession v = .ok s → s.base.isExpiredAt now = true →
        storeVerify keys isRev now c = .error .expired)
    ∧ (∀ v s u, fromString c = .ok v →
        (keys.isEmpty || keys.any (fun k => k v.payload v.signature)) = true →
        valueSession v = .ok s → s.base.isExpiredAt now = false →
        isRev s = .error u →
        storeVerify keys isRev now c = .error .backendFailed)
    ∧ (∀ v s, fromString c = .ok v →
        (keys.isEmpty || keys.any (fun k => k v.payload v.signature)) = true →
        valueSession v = .ok s → s.base.isExpiredAt now = false →
        isRev s = .ok true →
        storeVerify keys isRev now c = .error .revoked)
    ∧ (∀ v s, fromString c = .ok v →
        (keys.isEmpty || keys.any (fun k => k v.payload v.signature)) = true →
        valueSession v = .ok s → s.base.isExpiredAt now = false →
        isRev s = .ok false →
        storeVerify keys isRev now c = .ok s) := by
  refine ⟨?_, ?_, ?_, ?_, ?_, ?_, ?_⟩
  · intro e he
    simp [storeVerify, he]
  · intro v hv hk hany
    have hie : keys.isEmpty = false := by
      cases keys with
      | nil => exact absurd rfl hk
      | cons k ks => rfl
    simp [storeVerify, hv, hie, hany]
  · intro v e hv hsig he
    simp [storeVerify, hv, hsig, he]
  · intro v s hv hsig hs hexp
    simp [storeVerify, hv, hsig, hs, hexp]
  · intro v s u hv hsig hs hexp hrev
    simp [storeVerify, hv, hsig, hs, hexp, hrev]
  · intro v s hv hsig hs hexp hrev
    simp [storeVerify, hv, hsig, hs, hexp, hrev]
  · intro v s hv hsig hs hexp hrev
    simp [storeVerify, hv, hsig, hs, hexp, hrev]

/-- C1 at a concrete input: a dotless cookie string fails with the
codec's error. -/
theorem claim_C1_witness :
    storeVerify wKeys wIsRev 0 [102] = .error (.malformed .noDot) :=
  (claim_C1 wKeys wIsRev 0 [102]).1 .noDot rfl

/-- C2 (amended): after `revoke(s)`, along any further sequence of
non-GC backend operations, verify of any well-formed cookie whose payload
carries `s.id`, whose signature some key accepts and which is not yet
expired, returns `revoked`. (The original claim fails for cookies the
earlier checks reject: see the counterexample, where verify of an expired
revoked cookie returns `expired`; `CollectGarbage` can even drop the
revocation entry of an expired session.) -/
theorem claim_C2 (b : InMemoryBackend) (s : Session) (ops : List BackendOp)
    (keys : List (List Nat → List Nat → Bool)) (now : Int) (c : List Nat)
    (v : Value) (s' : Session)
    (hrev : imIsRevoked b s = true)
    (hops : ∀ op ∈ ops, op.isGC = false)
    (hdec : fromString c = .ok v)
    (hsess : valueSession v = .ok s')
    (hid : s'.id = s.id)
    (hsig : (keys.isEmpty || keys.any (fun k => k v.payload v.signature)) = true)
    (hexp : s'.base.isExpiredAt now = false) :
    storeVerify keys (fun t => .ok (imIsRevoked (applyOps b ops) t)) now c
      = .error .revoked := by
  have hR : imIsRevoked (applyOps b ops) s' = true := by
    simp only [imIsRevoked] at hrev ⊢
    rw [hid]
    exact applyOps_revoked_persist ops b s.id hops hrev
  simp [storeVerify, hdec, hsig, hsess, hexp, hR]

/-- C2 counterexample: `cx2S` is revoked on `cx2B`, yet verifying a
well-formed, accepted cookie with its SID returns `expired`, not
`revoked` (the expiry check runs first). -/
theorem claim_C2_counterexample :
    imIsRevoked cx2B cx2S = true
    ∧ storeVerify wKeys (fun t => .ok (imIsRevoked cx2B t)) 1000000000 cx2Cookie
        = .error .expired := by
  have h := cookieRoundtrip cx2S.id cx2S.base [115]
    (by decide) (by decide) (by decide) (by decide) (by decide)
  have hexp : SessionBase.isExpiredAt
      (⟨cx2S.id, cx2S.base⟩ : Session).base 1000000000 = true := by decide
  refine ⟨rfl, ?_⟩
  simp only [cx2Cookie, storeVerify, h.1, h.2.2.1, hexp]
  rfl

/-- C2 at a concrete input: after revoking `wS` and then saving `wSF`,
verify of the matching cookie returns `revoked`. -/
theorem claim_C2_witness :
    storeVerify wKeys
      (fun t => .ok (imIsRevoked (applyOps w2B [BackendOp.save wSF]) t)) 0 w2Cookie
      = .error .revoked := by
  have h := cookieRoundtrip wS.id wS.base [115]
    (by decide) (by decide) (by decide) (by decide) (by decide)
  exact claim_C2 w2B wS [BackendOp.save wSF] wKeys 0 w2Cookie
    { MakeValue wS.id wS.base with signature := [115] } wS
    rfl
    (by intro op hop; simp only [List.mem_singleton] at hop; subst hop; rfl)
    (by simpa only [w2Cookie] using h.1)
    h.2.2.1
    rfl rfl (by decide)

/-- C3 (amended): for every 16-byte identifier, every `SessionBase` with
a valid-UTF-8 username, and every NONEMPTY signature, encode
(`MakeValue` + signature + `String`) then decode (`FromString`)
round-trips exactly, and `ID`/`Session` recover the inputs. (The
original claim also quantified over the empty signature, for which the
rendered string has an empty second half and `FromString` rejects it:
see the counterexample.) -/
theorem claim_C3 (id : List Nat) (sb : SessionBase) (sig : List Nat)
    (hlen : id.length = ulidLength) (hid : ∀ b ∈ id, b < 256)
    (hsig : sig ≠ []) (hsigb : ∀ b ∈ sig, b < 256)
    (hu : ∀ r ∈ sb.username, ValidRune r) :
    fromString (valueString { MakeValue id sb with signature := sig })
      = .ok { MakeValue id sb with signature := sig }
    ∧ valueID { MakeValue id sb with signature := sig } = some id
    ∧ valueSession { MakeValue id sb with signature := sig } = .ok ⟨id, sb⟩
    ∧ valueSessionBase { MakeValue id sb with signature := sig } = some sb :=
  cookieRoundtrip id sb sig hlen hid hsig hsigb hu

/-- C3 counterexample: with the empty signature `MakeValue` installs,
the rendered cookie string does not decode (its signature half is
empty), so the round-trip fails for the empty signature. -/
theorem claim_C3_counterexample :
    fromString (valueString (MakeValue (List.replicate 16 0) ⟨[97], 0⟩))
      = .error .emptyHalf := by
  have hne : b64Encode (MakeValue (List.replicate 16 0) ⟨[97], 0⟩).payload ≠ [] := by
    apply b64Encode_ne_nil
    intro hnil
    have h0 : ((List.replicate 16 0 : List Nat) ++ marshalSessionBase ⟨[97], 0⟩).length = 0 := by
      rw [show (MakeValue (List.replicate 16 0) ⟨[97], 0⟩).payload
            = List.replicate 16 0 ++ marshalSessionBase ⟨[97], 0⟩ from rfl] at hnil
      rw [hnil]
      rfl
    rw [List.length_append, List.length_replicate] at h0
    omega
  have hsig : b64Encode (MakeValue (List.replicate 16 0) ⟨[97], 0⟩).signature = [] := rfl
  simp only [valueString, fromString, hsig]
  rw [splitFirst_append 46 _ [] (b64Encode_no_dot _)]
  simp [hne]

/-- C3 at a concrete input: the round-trip for `wID`, `wSB` and the
one-byte signature `[115]`. -/
theorem claim_C3_witness :
    fromString (valueString { MakeValue wID wSB with signature := [115] })
      = .ok { MakeValue wID wSB with signature := [115] }
    ∧ valueID { MakeValue wID wSB with signature := [115] } = some wID
    ∧ valueSession { MakeValue wID wSB with signature := [115] } = .ok ⟨wID, wSB⟩
    ∧ valueSessionBase { MakeValue wID wSB with signature := [115] } = some wSB :=
  claim_C3 wID wSB [115] (by decide) (by decide) (by decide) (by decide) (by decide)

/-- C4 (amended): `FromString` rejects every cookie string with no dot,
an empty half, a half containing a character outside the unpadded
URL-safe base64 alphabet OTHER THAN CR and LF (in particular `=`
padding, `+`, `/`, and a second `.`), or a decoded payload of at most
`ulidLength` (16) bytes; CR and LF, however, are skipped by Go's base64
decoder rather than rejected, so not every non-URL-safe half fails (see
the counterexample). -/
theorem claim_C4 (a b : List Nat) (x : Nat) :
    (46 ∉ a → fromString a = .error .noDot)
    ∧ (46 ∉ a → (a = [] ∨ b = []) → fromString (a ++ 46 :: b) = .error .emptyHalf)
    ∧ (b64CharDec 61 = none ∧ b64CharDec 43 = none ∧ b64CharDec 47 = none
        ∧ b64CharDec 46 = none)
    ∧ (∀ cs : List Nat, b64Decode (cs.filter b64Keep) = b64Decode cs)
    ∧ (46 ∉ a → a ≠ [] → b ≠ [] → x ∈ a → b64CharDec x = none → x ≠ 10 → x ≠ 13 →
        fromString (a ++ 46 :: b) = .error .badPayloadB64)
    ∧ (∀ p, 46 ∉ a → a ≠ [] → b ≠ [] → b64Decode a = some p →
        p.length ≤ ulidLength → fromString (a ++ 46 :: b) = .error .tooShort)
    ∧ (∀ p, 46 ∉ a → a ≠ [] → b ≠ [] → b64Decode a = some p →
        ulidLength < p.length → x ∈ b → b64CharDec x = none → x ≠ 10 → x ≠ 13 →
        fromString (a ++ 46 :: b) = .error .badSigB64) := by
  refine ⟨?_, ?_, by decide, ?_, ?_, ?_, ?_⟩
  · intro h
    simp [fromString, splitFirst_eq_none 46 a h]
  · intro h hab
    rw [fromString, splitFirst_append 46 a b h]
    simp [hab]
  · intro cs
    unfold b64Decode
    rw [List.filter_filter]
    congr 2
    exact List.filter_congr (fun c _ => Bool.and_self (b64Keep c))
  · intro h ha hb hx hdx hx10 hx13
    rw [fromString, splitFirst_append 46 a b h]
    simp [ha, hb, b64Decode_none_of_bad_char a x hx hdx hx10 hx13]
  · intro p h ha hb hp hlen
    rw [fromString, splitFirst_append 46 a b h]
    simp [ha, hb, hp, hlen]
  · intro p h ha hb hp hlen hx hdx hx10 hx13
    rw [fromString, splitFirst_append 46 a b h]
    simp [ha, hb, hp, Nat.not_le.mpr hlen, b64Decode_none_of_bad_char b x hx hdx hx10 hx13]

/-- C4 counterexample: a payload half that is NOT URL-safe unpadded
base64 — 24 `A`s followed by a line feed — is nevertheless accepted:
Go's base64 decoder skips the LF and the 24 remaining characters decode
to 18 bytes (more than 16), so `FromString` succeeds on
`"AAAAAAAAAAAAAAAAAAAAAAAA\n.c2ln"`. -/
theorem claim_C4_counterexample :
    b64CharDec 10 = none
    ∧ fromString ((List.replicate 24 65 ++ [10]) ++ 46 :: [99, 50, 108, 110])
        = .ok ⟨List.replicate 18 0, [115, 105, 103]⟩ :=
  ⟨rfl, rfl⟩

/-- C4 at a concrete input: `"=.A"` (`=` padding in the payload half) is
rejected as bad base64. -/
theorem claim_C4_witness :
    fromString [61, 46, 65] = .error .badPayloadB64 :=
  (claim_C4 [61] [65] 61).2.2.2.2.1 (by decide) (by decide) (by decide)
    (List.mem_singleton.mpr rfl) (by decide) (by decide) (by decide)

/-- C5 (amended): on every reachable in-memory backend state,
`Revoke(s)` itself leaves `s.id` in exactly the revoked state: it is in
the revoked set and no longer in its user's bucket. (The global
three-state exclusivity of the original claim fails: `LoadRevocations`
of a still-active session — and re-`Save` of a revoked one — leave the
same SID active and revoked at once, see the counterexample.) -/
theorem claim_C5 (b : InMemoryBackend) (s : Session) (h : ReachableIM b) :
    lookupA (imRevoke b s).revoked s.id = some s.base
    ∧ (∀ m, lookupA (imRevoke b s).sessions s.base.username = some m →
        lookupA m s.id = none)
    ∧ imIsRevoked (imRevoke b s) s = true := by
  have hnd := reachable_bucketsNodup b h
  refine ⟨lookupA_updateA_self _ _ _, ?_, ?_⟩
  · intro m hm
    simp only [imRevoke] at hm
    cases hb : lookupA b.sessions s.base.username with
    | none =>
        simp only [hb] at hm
        cases hm
    | some m0 =>
        simp only [hb] at hm
        rw [lookupA_updateA_self] at hm
        cases hm
        exact lookupA_eraseA_self m0 s.id (hnd _ m0 hb)
  · simp only [imIsRevoked, imRevoke]
    rw [lookupA_updateA_self]
    rfl

/-- C5 counterexample: saving `wSF` and then loading `[wS]` as an
external revocation list leaves `wS.id` in the user's active bucket and
in the revoked set at the same time. -/
theorem claim_C5_counterexample :
    applyOps InMemoryBackend.empty
        [BackendOp.save wSF, BackendOp.loadRevocations [wS]] = cx5B
    ∧ (lookupA ((lookupA cx5B.sessions wSB.username).getD []) wS.id).isSome = true
    ∧ (lookupA cx5B.revoked wS.id).isSome = true := by
  refine ⟨rfl, ?_, ?_⟩ <;> decide

/-- C5 at a concrete input: revoking `wS` on the reachable state `cx5B`
puts `wS.id` in the revoked set and removes it from the user bucket. -/
theorem claim_C5_witness :
    lookupA (imRevoke cx5B wS).revoked wS.id = some wS.base
    ∧ (∀ m, lookupA (imRevoke cx5B wS).sessions wS.base.username = some m →
        lookupA m wS.id = none)
    ∧ imIsRevoked (imRevoke cx5B wS) wS = true :=
  claim_C5 cx5B wS ⟨[BackendOp.save wSF, BackendOp.loadRevocations [wS]], rfl⟩

/-- C6: on both backends, `CollectGarbage` deletes exactly the expired
entries from the per-user buckets and from the revoked set, returns only
the count of deletions from the user buckets, and on a state with no
expired entries returns 0 and leaves the state unchanged. -/
theorem claim_C6 (b : InMemoryBackend) (bb : BoltState) (now : Int) :
    (imCollectGarbage b now).1.sessions
        = b.sessions.map (fun p => (p.1, p.2.filter (fun e => ! e.2.base.isExpiredAt now)))
    ∧ (imCollectGarbage b now).1.revoked
        = b.revoked.filter (fun e => ! e.2.isExpiredAt now)
    ∧ (imCollectGarbage b now).2
        = (b.sessions.map (fun p => p.2.countP (fun e => e.2.base.isExpiredAt now))).sum
    ∧ ((∀ p ∈ b.sessions, ∀ e ∈ p.2, e.2.base.isExpiredAt now = false) →
        (∀ e ∈ b.revoked, e.2.isExpiredAt now = false) →
        imCollectGarbage b now = (b, 0))
    ∧ (boltCollectGarbage bb now).1.sessions
        = bb.sessions.map (fun p => (p.1, p.2.filter (fun e => ! e.2.isExpiredAt now)))
    ∧ (boltCollectGarbage bb now).1.revoked
        = bb.revoked.filter (fun e => ! e.2.isExpiredAt now)
    ∧ (boltCollectGarbage bb now).2
        = (bb.sessions.map (fun p => p.2.countP (fun e => e.2.isExpiredAt now))).sum
    ∧ ((∀ p ∈ bb.sessions, ∀ e ∈ p.2, e.2.isExpiredAt now = false) →
        (∀ e ∈ bb.revoked, e.2.isExpiredAt now = false) →
        boltCollectGarbage bb now = (bb, 0)) := by
  refine ⟨by rw [imCollectGarbage_eq], by rw [imCollectGarbage_eq],
    by rw [imCollectGarbage_eq], ?_, by rw [boltCollectGarbage_eq],
    by rw [boltCollectGarbage_eq], by rw [boltCollectGarbage_eq], ?_⟩
  · intro h1 h2
    rw [imCollectGarbage_eq]
    have hses : b.sessions.map
          (fun p => (p.1, p.2.filter (fun e => ! e.2.base.isExpiredAt now)))
        = b.sessions := by
      conv_rhs => rw [← List.map_id b.sessions]
      refine List.map_congr_left (fun p hp => ?_)
      refine Prod.ext rfl ?_
      exact List.filter_eq_self.mpr (fun e he => by simp [h1 p hp e he])
    have hrev : b.revoked.filter (fun e => ! e.2.isExpiredAt now) = b.revoked :=
      List.filter_eq_self.mpr (fun e he => by simp [h2 e he])
    have hcnt : (b.sessions.map
          (fun p => p.2.countP (fun e => e.2.base.isExpiredAt now))).sum = 0 := by
      refine List.sum_eq_zero (fun x hx => ?_)
      obtain ⟨p, hp, rfl⟩ := List.mem_map.mp hx
      exact List.countP_eq_zero.mpr (fun e he => by simp [h1 p hp e he])
    refine Prod.ext ?_ hcnt
    show (⟨_, _⟩ : InMemoryBackend) = b
    rw [hses, hrev]
  · intro h1 h2
    rw [boltCollectGarbage_eq]
    have hses : bb.sessions.map
          (fun p => (p.1, p.2.filter (fun e => ! e.2.isExpiredAt now)))
        = bb.sessions := by
      conv_rhs => rw [← List.map_id bb.sessions]
      refine List.map_congr_left (fun p hp => ?_)
      refine Prod.ext rfl ?_
      exact List.filter_eq_self.mpr (fun e he => by simp [h1 p hp e he])
    have hrev : bb.revoked.filter (fun e => ! e.2.isExpiredAt now) = bb.revoked :=
      List.filter_eq_self.mpr (fun e he => by simp [h2 e he])
    have hcnt : (bb.sessions.map
          (fun p => p.2.countP (fun e => e.2.isExpiredAt now))).sum = 0 := by
      refine List.sum_eq_zero (fun x hx => ?_)
      obtain ⟨p, hp, rfl⟩ := List.mem_map.mp hx
      exact List.countP_eq_zero.mpr (fun e he => by simp [h1 p hp e he])
    refine Prod.ext ?_ hcnt
    show (⟨_, _⟩ : BoltState) = bb
    rw [hses, hrev]

/-- C6 at a concrete input: on the empty backend, `CollectGarbage`
returns 0 and changes nothing. -/
theorem claim_C6_witness :
    imCollectGarbage InMemoryBackend.empty 0 = (InMemoryBackend.empty, 0) :=
  (claim_C6 InMemoryBackend.empty ⟨[], []⟩ 0).2.2.2.1
    (fun p hp => absurd hp (List.not_mem_nil p))
    (fun e he => absurd he (List.not_mem_nil e))

/-- C7: on both backends, `LoadRevocations` makes exactly the SIDs of
the given list revoked (on top of those already revoked), counts — for
a list with distinct SIDs — exactly the entries whose SID was not yet
known, a second identical call is a no-op returning 0, and the per-user
session buckets are never touched. -/
theorem claim_C7 (b : InMemoryBackend) (bb : BoltState) (l : List Session) :
    (∀ id, (lookupA (imLoadRevocations b l).1.revoked id).isSome = true
        ↔ ((lookupA b.revoked id).isSome = true ∨ ∃ s ∈ l, s.id = id))
    ∧ ((l.map Session.id).Nodup →
        (imLoadRevocations b l).2
          = (l.filter (fun s => (lookupA b.revoked s.id).isNone)).length)
    ∧ imLoadRevocations (imLoadRevocations b l).1 l = ((imLoadRevocations b l).1, 0)
    ∧ (imLoadRevocations b l).1.sessions = b.sessions
    ∧ (∀ id, (lookupA (boltLoadRevocations bb l).1.revoked id).isSome = true
        ↔ ((lookupA bb.revoked id).isSome = true ∨ ∃ s ∈ l, s.id = id))
    ∧ ((l.map Session.id).Nodup →
        (boltLoadRevocations bb l).2
          = (l.filter (fun s => (lookupA bb.revoked s.id).isNone)).length)
    ∧ boltLoadRevocations (boltLoadRevocations bb l).1 l
        = ((boltLoadRevocations bb l).1, 0)
    ∧ (boltLoadRevocations bb l).1.sessions = bb.sessions := by
  refine ⟨?_, ?_, ?_, ?_, ?_, ?_, ?_, ?_⟩
  · intro id
    rw [imLoadRevocations_eq_foldl]
    exact loadRev_mem l b id
  · intro hnd
    rw [imLoadRevocations_eq_foldl]
    exact loadRev_count l b hnd
  · rw [imLoadRevocations_eq_foldl, imLoadRevocations_eq_foldl]
    refine loadRev_noop l _ (fun s hs => ?_)
    exact (loadRev_mem l b s.id).mpr (Or.inr ⟨s, hs, rfl⟩)
  · rw [imLoadRevocations_eq_foldl]
    exact loadRev_sessions l b 0
  · intro id
    rw [boltLoadRevocations_eq_foldl]
    exact bLoadRev_mem l bb id
  · intro hnd
    rw [boltLoadRevocations_eq_foldl]
    exact bLoadRev_count l bb hnd
  · rw [boltLoadRevocations_eq_foldl, boltLoadRevocations_eq_foldl]
    refine bLoadRev_noop l _ (fun s hs => ?_)
    exact (bLoadRev_mem l bb s.id).mpr (Or.inr ⟨s, hs, rfl⟩)
  · rw [boltLoadRevocations_eq_foldl]
    exact bLoadRev_sessions l bb 0

/-- C7 at a concrete input: loading `[wS]` into either empty backend
adds one entry, and loading it again adds none and changes nothing. -/
theorem claim_C7_witness :
    (imLoadRevocations InMemoryBackend.empty [wS]).2 = 1
    ∧ imLoadRevocations (imLoadRevocations InMemoryBackend.empty [wS]).1 [wS]
        = ((imLoadRevocations InMemoryBackend.empty [wS]).1, 0)
    ∧ (boltLoadRevocations ⟨[], []⟩ [wS]).2 = 1
    ∧ boltLoadRevocations (boltLoadRevocations ⟨[], []⟩ [wS]).1 [wS]
        = ((boltLoadRevocations ⟨[], []⟩ [wS]).1, 0) := by
  have h := claim_C7 InMemoryBackend.empty ⟨[], []⟩ [wS]
  refine ⟨?_, h.2.2.1, ?_, h.2.2.2.2.2.2.1⟩
  · rw [h.2.1 (by simp)]
    rfl
  · rw [h.2.2.2.2.2.1 (by simp)]
    rfl

/-- C8: the session-list and full-session-list marshallers emit exactly
`[]` (bytes 91, 93) for every empty list and can never emit `null`; the
revoked field of the `SignedRevocationList` built by `ListRevoked` on a
store with no revocations is exactly `[]`, with or without a signer. -/
theorem claim_C8 :
    sessionListMarshalJSON [] = [91, 93]
    ∧ sessionFullListMarshalJSON [] = [91, 93]
    ∧ (∀ l : List Session, l.length = 0 → sessionListMarshalJSON l = [91, 93])
    ∧ (∀ l : List SessionFull, l.length = 0 → sessionFullListMarshalJSON l = [91, 93])
    ∧ (∀ l : List Session, sessionListMarshalJSON l ≠ [110, 117, 108, 108])
    ∧ (∀ l : List SessionFull, sessionFullListMarshalJSON l ≠ [110, 117, 108, 108])
    ∧ storeListRevoked none (.ok []) = .ok ⟨[91, 93], []⟩
    ∧ (∀ sign sig, sign [91, 93] = .ok sig →
        storeListRevoked (some sign) (.ok []) = .ok ⟨[91, 93], sig⟩) := by
  refine ⟨rfl, rfl, ?_, ?_, ?_, ?_, rfl, ?_⟩
  · intro l hl
    simp [sessionListMarshalJSON, hl]
  · intro l hl
    simp [sessionFullListMarshalJSON, hl]
  · intro l
    cases l with
    | nil => decide
    | cons s rest =>
        intro hcon
        simp [sessionListMarshalJSON, goMarshalSlice] at hcon
  · intro l
    cases l with
    | nil => decide
    | cons s rest =>
        intro hcon
        simp [sessionFullListMarshalJSON, goMarshalSlice] at hcon
  · intro sign sig hs
    simp [storeListRevoked, show sessionListMarshalJSON [] = [91, 93] from rfl, hs]

/-- C8 at a concrete input: the empty full-session list marshals to
`[]`. -/
theorem claim_C8_witness : sessionFullListMarshalJSON [] = [91, 93] :=
  claim_C8.2.1

/-- C9 (amended): a configured interval STRICTLY greater than one second
is used as is, and any other (unset, smaller, or exactly one second) is
replaced by the default — 5 minutes for the GC loop, 10 seconds for the
sync loop. (The original claim's "floor of 1 s / for every configured
interval of at least one second the loop runs at exactly that interval"
fails at exactly one second: the comparison is `<=`, see the
counterexample.) -/
theorem claim_C9 (i : Int) :
    (timeSecondNs < i →
        effectiveGCInterval i = i ∧ effectiveSyncInterval i = i)
    ∧ (i ≤ timeSecondNs →
        effectiveGCInterval i = 300000000000
        ∧ effectiveSyncInterval i = 10000000000) := by
  constructor
  · intro h
    constructor
    · rw [effectiveGCInterval, if_neg (by omega)]
    · rw [effectiveSyncInterval, if_neg (by omega)]
  · intro h
    constructor
    · rw [effectiveGCInterval, if_pos h]
    · rw [effectiveSyncInterval, if_pos h]

/-- C9 counterexample: a configured interval of exactly one second is
not honoured; both loops fall back to their defaults. -/
theorem claim_C9_counterexample :
    effectiveGCInterval 1000000000 = 300000000000
    ∧ effectiveSyncInterval 1000000000 = 10000000000 := by
  constructor <;> decide

/-- C9 at a concrete input: two seconds is honoured by both loops. -/
theorem claim_C9_witness :
    effectiveGCInterval 2000000000 = 2000000000
    ∧ effectiveSyncInterval 2000000000 = 2000000000 :=
  (claim_C9 2000000000).1 (by decide)

/-- C10: with no signing key (`st.signer == nil`), `ListRevoked` does
not fail: it returns the marshalled revocation list with an empty (nil)
signature. -/
theorem claim_C10 (l : List Session) :
    storeListRevoked none (.ok l) = .ok ⟨sessionListMarshalJSON l, []⟩ := rfl

/-- C10 at a concrete input: the empty list case. -/
theorem claim_C10_witness :
    storeListRevoked none (.ok []) = .ok ⟨sessionListMarshalJSON [], []⟩ :=
  claim_C10 []

end NginxSSO

